import Mathlib

/-!
Verification of `src/mrs/eval_edm_json.py` (EDM F1 scorer for MRS graphs).

The Python program manipulates triples as plain strings.  We embed strings as
`List Char` and model the Python string operations used by the source
(`str.split`, `str.replace`, `int(...)`, `str(int)`) as executable Lean
functions.  Recursion is fuelled where the natural recursion is not
structural, so that every definition evaluates by `decide` / `rfl`.
Fallible Python code (exceptions from `int()`, indexing, `KeyError`,
`assert`, `ZeroDivisionError`) is modelled with `Option` / `Except`.
-/

/-- The decimal digit character for `d < 10` (`'0'` + d). -/
def digitC (d : Nat) : Char := Char.ofNat (48 + d)

/-- Fuelled decimal printer for naturals; `natStr` supplies enough fuel. -/
def natStrAux : Nat → Nat → List Char
  | 0, _ => []
  | fuel + 1, n => if n < 10 then [digitC n] else natStrAux fuel (n / 10) ++ [digitC (n % 10)]

/-- Decimal representation of a natural number, as Python's `str` produces it. -/
def natStr (n : Nat) : List Char := natStrAux (n + 1) n

/-- Python's `str` on an `int`: decimal digits, with a leading `'-'` when negative. -/
def intStr : Int → List Char
  | .ofNat n => natStr n
  | .negSucc n => '-' :: natStr (n + 1)

/-- Value of a decimal digit character, `none` for a non-digit. -/
def digitVal? (c : Char) : Option Nat :=
  if 48 ≤ c.toNat ∧ c.toNat ≤ 57 then some (c.toNat - 48) else none

/-- Accumulating decimal parser; a non-digit character poisons the accumulator. -/
def parseNatAux : Option Nat → List Char → Option Nat
  | acc, [] => acc
  | acc, c :: cs => parseNatAux (acc.bind fun a => (digitVal? c).map fun d => a * 10 + d) cs

/-- Parse a nonempty all-digit string; models the digit-string core of Python `int`. -/
def parseNat : List Char → Option Nat
  | [] => none
  | c :: cs => parseNatAux (some 0) (c :: cs)

/-- Python `int(s)` on an optionally signed decimal string (the only form this
program ever feeds to `int`, namely outputs of `str(int)` and raw triple
fragments); `none` models the `ValueError` exception on anything else. -/
def pyInt? (s : List Char) : Option Int :=
  match s with
  | [] => none
  | c :: rest =>
    if c = '-' then (parseNat rest).map fun n => -(n : Int)
    else if c = '+' then (parseNat rest).map fun n => (n : Int)
    else (parseNat (c :: rest)).map fun n => (n : Int)

/-- Python `s.split(sep)` for a one-character separator: splits at every
occurrence and keeps empty fragments, so the result is always nonempty. -/
def pySplit (sep : Char) : List Char → List (List Char)
  | [] => [[]]
  | c :: cs =>
    if c = sep then [] :: pySplit sep cs
    else
      match pySplit sep cs with
      | [] => [[c]]
      | p :: ps => (c :: p) :: ps

/-- Fuelled body of Python `s.replace(old, new)`: scan left to right replacing
non-overlapping occurrences.  The `old = []` guard keeps the function total;
the program only ever replaces span strings, which are nonempty. -/
def pyReplaceAux (old new : List Char) : Nat → List Char → List Char
  | 0, s => s
  | fuel + 1, s =>
    match s with
    | [] => []
    | c :: cs =>
      if !old.isEmpty && old.isPrefixOf (c :: cs) then
        new ++ pyReplaceAux old new fuel ((c :: cs).drop old.length)
      else
        c :: pyReplaceAux old new fuel cs

/-- Python `s.replace(old, new)` (all occurrences, left to right). -/
def pyReplace (old new s : List Char) : List Char := pyReplaceAux old new (s.length + 1) s

/-- `mapM` over `Option`, written structurally so it evaluates in the kernel. -/
def mapO (f : α → Option β) : List α → Option (List β)
  | [] => some []
  | a :: l => (f a).bind fun b => (mapO f l).map fun bs => b :: bs

/-- `foldlM` over `Option`, written structurally so it evaluates in the kernel. -/
def foldO (f : σ → α → Option σ) : σ → List α → Option σ
  | s, [] => some s
  | s, a :: l => (f s a).bind fun s' => foldO f s' l

/-- The literal `"NAME"`. -/
def tokNAME : List Char := ['N', 'A', 'M', 'E']

/-- The literal `"CARG"`. -/
def tokCARG : List Char := ['C', 'A', 'R', 'G']

/-- The literal `"/EQ"`. -/
def tokEQ : List Char := ['/', 'E', 'Q']

/-- The literal `"/EQ/U"`. -/
def tokEQU : List Char := ['/', 'E', 'Q', '/', 'U']

/-- The literal `"REL"`. -/
def tokREL : List Char := ['R', 'E', 'L']

/-- The literal `"-1:-1 /H "` prefixed to root-marker triples. -/
def rootMark : List Char := ['-', '1', ':', '-', '1', ' ', '/', 'H', ' ']

/-!
## Graph model (`MrsNode`, `MrsGraph`)

The Python `MrsNode` keeps its outgoing edges in two parallel lists
`edges` (child indices) and `relations` (labels), extended only in lock
step by `append_edge`; we embed the pair of lists as one list of pairs.
-/

/-- One semantic-graph node: `MrsNode.__init__` plus the fields assigned
during construction (`constant`, `top`, edges). -/
structure MrsNode where
  name : List Char
  concept : List Char
  start : Int
  end_ : Int
  constant : List Char := []
  top : Bool := false
  edges : List (Nat × List Char) := []
deriving DecidableEq

instance : Inhabited MrsNode := ⟨⟨[], [], 0, 0, [], false, []⟩⟩

/-- `MrsNode.span_str`: `"<start>:<end>"`, or `"<start>:<start>"` when span
ends are excluded. -/
def MrsNode.span_str (node : MrsNode) (include_end : Bool) : List Char :=
  if include_end then intStr node.start ++ ':' :: intStr node.end_
  else intStr node.start ++ ':' :: intStr node.start

/-- `MrsGraph`: an ordered node list plus the parse identifier. -/
structure MrsGraph where
  nodes : List MrsNode
  parse_id : Int := -1
deriving DecidableEq

/-- `MrsGraph.predicate_bag`: bare concepts, plus constants when included
(Python's `if include_constants and node.constant:` — the empty string is
falsy). -/
def MrsGraph.predicate_bag (g : MrsGraph) (include_constants : Bool) : List (List Char) :=
  g.nodes.flatMap fun node =>
    node.concept ::
      (if include_constants && !node.constant.isEmpty then [node.constant] else [])

/-- `MrsGraph.predicate_triples`: a `NAME` triple per node, plus a `CARG`
triple when constants are included and the node has one. -/
def MrsGraph.predicate_triples (g : MrsGraph) (include_constants include_span_ends : Bool) :
    List (List Char) :=
  g.nodes.flatMap fun node =>
    (node.span_str include_span_ends ++ ' ' :: (tokNAME ++ ' ' :: node.concept)) ::
      (if include_constants && !node.constant.isEmpty then
        [node.span_str include_span_ends ++ ' ' :: (tokCARG ++ ' ' :: node.constant)]
      else [])

/-- The label written into an edge triple: the edge's relation when
`labeled`, else the placeholder `REL`; then `/EQ` becomes the merged tag
`/EQ/U`. -/
def relLabel (labeled : Bool) (rel : List Char) : List Char :=
  let r0 := if labeled then rel else tokREL
  if r0 = tokEQ then tokEQU else r0

/-- The triple emitted for one edge in `MrsGraph.relation_triples`: the two
span strings are swapped for an `/EQ` edge whose parent `(start, end)` is
lexicographically greater than the child's, and the label is rewritten by
`relLabel`. -/
def relationTripleFor (include_span_ends labeled : Bool) (node child : MrsNode)
    (rel : List Char) : List Char :=
  let node_ind := node.span_str include_span_ends
  let child_ind := child.span_str include_span_ends
  let p :=
    if rel = tokEQ ∧ (node.start > child.start ∨
        (node.start = child.start ∧ node.end_ > child.end_)) then
      (child_ind, node_ind)
    else (node_ind, child_ind)
  p.1 ++ ' ' :: (relLabel labeled rel ++ ' ' :: p.2)

/-- `MrsGraph.relation_triples`: first one root-marker triple per top node in
node order, then the edge triples in node and edge order.  The child lookup
`self.nodes[child_index]` is total here via a default node; the Python code
would raise on an out-of-range index, which graph construction never
produces. -/
def MrsGraph.relation_triples (g : MrsGraph) (include_span_ends labeled : Bool) :
    List (List Char) :=
  (g.nodes.flatMap fun node =>
    if node.top then [rootMark ++ node.span_str include_span_ends] else []) ++
  (g.nodes.flatMap fun node =>
    node.edges.map fun e =>
      relationTripleFor include_span_ends labeled node (g.nodes.getD e.1 default) e.2)

/-- `MrsGraph.eds_triples`: predicate triples (or the bag) when scoring
predicates, then relation triples when scoring relations. -/
def MrsGraph.eds_triples (g : MrsGraph)
    (score_predicates score_relations include_span_ends include_constants
      labeled include_predicate_spans : Bool) : List (List Char) :=
  (if score_predicates then
    (if include_predicate_spans then g.predicate_triples include_constants include_span_ends
     else g.predicate_bag include_constants)
   else []) ++
  (if score_relations then g.relation_triples include_span_ends labeled else [])

/-!
## Scorer (`list_spans`, span shifting, `replace_new_spans`, `compute_f1`)
-/

/-- The spans one triple contributes in `list_spans`: `parts[0]` when
`parts[1]` is `NAME` or `CARG`, else `parts[0]` and `parts[2]` when the
split has more than two parts. -/
def tripleSpans (t : List Char) : List (List Char) :=
  let parts := pySplit ' ' t
  if parts.length > 1 ∧ (parts.getD 1 [] = tokNAME ∨ parts.getD 1 [] = tokCARG) then
    [parts.getD 0 []]
  else if parts.length > 2 then
    [parts.getD 0 [], parts.getD 2 []]
  else []

/-- One `spans.add(...)` on the Python set, modelled as append-if-absent.
CPython's set iteration order is unspecified; the claims below depend only on
membership and on deduplication, never on this order. -/
def addSpan (acc : List (List Char)) (s : List Char) : List (List Char) :=
  if s ∈ acc then acc else acc ++ [s]

/-- `list_spans`: collect the spans of every triple into a set, returned as a
list (`list(spans)` in the source). -/
def list_spans (triples : List (List Char)) : List (List Char) :=
  triples.foldl (fun acc t => (tripleSpans t).foldl addSpan acc) []

/-- One element of `inc_end_spans` / `dec_end_spans`:
`span.split(':')[0] + ":" + str(int(span.split(':')[1]) + delta)`;
`none` models the `IndexError` / `ValueError` the Python expression raises
on a string without a parsable second `:`-field. -/
def shift_end_span (delta : Int) (span : List Char) : Option (List Char) :=
  match pySplit ':' span with
  | p0 :: p1 :: _ => (pyInt? p1).map fun n => p0 ++ ':' :: intStr (n + delta)
  | _ => none

/-- `inc_end_spans`: add one to every span's end field. -/
def inc_end_spans (spans : List (List Char)) : Option (List (List Char)) :=
  mapO (shift_end_span 1) spans

/-- `dec_end_spans`: subtract one from every span's end field. -/
def dec_end_spans (spans : List (List Char)) : Option (List (List Char)) :=
  mapO (shift_end_span (-1)) spans

/-- `replace_new_spans`: walk the (old span, shifted span) pairs in order;
whenever the old span is not a gold span but the shifted one is, rewrite
every triple of the current collection by textual substring replacement. -/
def replace_new_spans (gold_spans : List (List Char))
    (pairs : List (List Char × List Char)) (triples : List (List Char)) :
    List (List Char) :=
  pairs.foldl
    (fun trs pr =>
      if pr.1 ∉ gold_spans ∧ pr.2 ∈ gold_spans then
        trs.map fun t => pyReplace pr.1 pr.2 t
      else trs)
    triples

/-- The span-reconciliation block of `compute_f1`: the predicted spans are
computed once, then the `+1` pass and the `-1` pass run in sequence, the
second over the output of the first. -/
def reconcile (gold_spans predicted_triples : List (List Char)) :
    Option (List (List Char)) :=
  let predicted_spans := list_spans predicted_triples
  (inc_end_spans predicted_spans).bind fun incs =>
  let t1 := replace_new_spans gold_spans (predicted_spans.zip incs) predicted_triples
  (dec_end_spans predicted_spans).bind fun decs =>
  some (replace_new_spans gold_spans (predicted_spans.zip decs) t1)

/-- The scoring configuration: the keyword arguments of `compute_f1`
(`verbose` only prints and is omitted). -/
structure F1Config where
  score_predicates : Bool
  score_relations : Bool
  include_constants : Bool := true
  labeled : Bool := true
  include_span_ends : Bool := true
  include_predicate_spans : Bool := true
  score_nones : Bool := true
deriving DecidableEq

/-- The `eds_triples` call `compute_f1` makes for one graph. -/
def extractTriples (cfg : F1Config) (g : MrsGraph) : List (List Char) :=
  g.eds_triples cfg.score_predicates cfg.score_relations cfg.include_span_ends
    cfg.include_constants cfg.labeled cfg.include_predicate_spans

/-- Lookup in a corpus (a Python dict keyed by parse id). -/
def lookupGraph (k : Int) : List (Int × MrsGraph) → Option MrsGraph
  | [] => none
  | (k', g) :: rest => if k' = k then some g else lookupGraph k rest

/-- The gold triples of one gold item, after the `score_nones` emptying:
they are discarded when the item is missing from the predicted corpus and
`score_nones` is false. -/
def itemGold (predicted_graphs : List (Int × MrsGraph)) (cfg : F1Config)
    (item : Int × MrsGraph) : List (List Char) :=
  if (lookupGraph item.1 predicted_graphs).isSome || cfg.score_nones then
    extractTriples cfg item.2
  else []

/-- The predicted triples of one gold item before reconciliation: the
extraction for the matching predicted graph, or empty when missing. -/
def itemPredRaw (predicted_graphs : List (Int × MrsGraph)) (cfg : F1Config)
    (item : Int × MrsGraph) : List (List Char) :=
  match lookupGraph item.1 predicted_graphs with
  | some pg => extractTriples cfg pg
  | none => []

/-- The predicted triples of one gold item after span reconciliation against
the item's gold span set. -/
def itemPred (predicted_graphs : List (Int × MrsGraph)) (cfg : F1Config)
    (item : Int × MrsGraph) : Option (List (List Char)) :=
  reconcile (list_spans (itemGold predicted_graphs cfg item))
    (itemPredRaw predicted_graphs cfg item)

/-- The four accumulators of `compute_f1`. -/
structure Totals where
  total_gold : Nat
  total_predicted : Nat
  total_correct : Nat
  none_count : Nat
deriving DecidableEq

/-- The accumulator update for one gold item, given the final (reconciled)
predicted triple list: convert both collections to sets and add the set
sizes, with `correct = gold ∩ predicted`; the missing-prediction counter
increments when the item has no predicted graph. -/
def itemTotals (predicted_graphs : List (Int × MrsGraph)) (cfg : F1Config)
    (acc : Totals) (item : Int × MrsGraph) (predicted_triples : List (List Char)) : Totals :=
  ⟨acc.total_gold + (itemGold predicted_graphs cfg item).toFinset.card,
   acc.total_predicted + predicted_triples.toFinset.card,
   acc.total_correct
     + ((itemGold predicted_graphs cfg item).toFinset ∩ predicted_triples.toFinset).card,
   if (lookupGraph item.1 predicted_graphs).isSome then acc.none_count
   else acc.none_count + 1⟩

/-- One iteration of the `compute_f1` loop over gold items: extract, apply
the reconciler, and accumulate the per-item set sizes. -/
def scoreItem (predicted_graphs : List (Int × MrsGraph)) (cfg : F1Config)
    (acc : Totals) (item : Int × MrsGraph) : Option Totals :=
  (itemPred predicted_graphs cfg item).map (itemTotals predicted_graphs cfg acc item)

/-- The accumulation phase of `compute_f1` over all gold items (iterating the
gold corpus in its insertion order, as a Python 3.7+ dict does). -/
def computeCounts (gold_graphs predicted_graphs : List (Int × MrsGraph))
    (cfg : F1Config) : Option Totals :=
  foldO (scoreItem predicted_graphs cfg) ⟨0, 0, 0, 0⟩ gold_graphs

/-- The ways `compute_f1` can fail: the `assert total_predicted > 0 and
total_gold > 0` (message `"No correct predictions"`), the
`ZeroDivisionError` when `precision + recall == 0`, and the exceptions
raised while shifting a malformed span. -/
inductive F1Error where
  | noCorrect
  | zeroDivision
  | spanError
deriving DecidableEq

instance {ε α : Type} [DecidableEq ε] [DecidableEq α] : DecidableEq (Except ε α) :=
  fun a b =>
    match a, b with
    | .error e, .error e' =>
      if h : e = e' then .isTrue (by rw [h]) else .isFalse (fun hc => h (Except.error.inj hc))
    | .ok x, .ok y =>
      if h : x = y then .isTrue (by rw [h]) else .isFalse (fun hc => h (Except.ok.inj hc))
    | .error _, .ok _ => .isFalse (fun hc => Except.noConfusion hc)
    | .ok _, .error _ => .isFalse (fun hc => Except.noConfusion hc)

/-- `compute_f1`: accumulate over all gold items, fail unless both totals are
positive, then return `(precision, recall, f1)`.  Python computes these with
floating-point division; we use exact rationals — the claims below concern
the defining formulas, and in the exact-match case the float results are
exact as well. -/
def compute_f1 (gold_graphs predicted_graphs : List (Int × MrsGraph))
    (cfg : F1Config) : Except F1Error (ℚ × ℚ × ℚ) :=
  match computeCounts gold_graphs predicted_graphs cfg with
  | none => .error .spanError
  | some t =>
    if t.total_predicted = 0 ∨ t.total_gold = 0 then .error .noCorrect
    else
      let p : ℚ := (t.total_correct : ℚ) / (t.total_predicted : ℚ)
      let r : ℚ := (t.total_correct : ℚ) / (t.total_gold : ℚ)
      if p + r = 0 then .error .zeroDivision
      else .ok (p, r, 2 * p * r / (p + r))

/-!
## Graph construction (`MrsGraph.parse_orig_json_line`)

The JSON deserialization is the external collaborator; construction starts
from the already-deserialized record (the schema of section 6 of the spec).
`top` is a `Bool` standing for Python's `"top" in node and node["top"]`, and
a missing `edges` field is the empty edge list.
-/

/-- One deserialized edge record: numeric target id and label. -/
structure EdgeRecord where
  target : Int
  label : List Char
deriving DecidableEq

/-- One deserialized node record. -/
structure NodeRecord where
  id : Int
  predicate : List Char
  constant : Option (List Char) := none
  start : Int
  end_ : Int
  top : Bool := false
  edges : List EdgeRecord := []
deriving DecidableEq

/-- One deserialized parse record (one line of the input file). -/
structure ParseRecord where
  id : Int
  nodes : List NodeRecord
deriving DecidableEq

/-- The constant canonicalization of pass 1: prepend a quote unless the value
starts with one, then append a quote unless it ends with one.  `none` models
the `IndexError` Python's `const[0]` raises on an empty constant. -/
def canonConstant : List Char → Option (List Char)
  | [] => none
  | ch :: cs =>
    let c1 := if ch = '"' then ch :: cs else '"' :: ch :: cs
    some (if c1.getLast? = some '"' then c1 else c1 ++ ['"'])

/-- The stored constant for a node record: the empty string when the record
has no constant (the `MrsNode.__init__` default), otherwise the
canonicalized value. -/
def mkConstant : Option (List Char) → Option (List Char)
  | none => some []
  | some c => canonConstant c

/-- Lookup in the `nodes_index` dict; entries are prepended, so the first
match is the most recently inserted one, matching dict overwrite semantics
for duplicate node ids. -/
def alookup (k : Int) : List (Int × Nat) → Option Nat
  | [] => none
  | (k', v) :: rest => if k' = k then some v else alookup k rest

/-- The `MrsNode` built for one node record in pass 1, its constant already
canonicalized (`name` is `str(node_id)` for the 0-based id). -/
def nodeOfRecord (nr : NodeRecord) (const : List Char) : MrsNode :=
  { name := intStr (nr.id - 1), concept := nr.predicate, start := nr.start,
    end_ := nr.end_, constant := const, top := nr.top, edges := [] }

/-- Pass 1 of `parse_orig_json_line` for one node record: record
`nodes_index[node_id] = len(nodes)`, build the `MrsNode` (with canonicalized
constant and top flag), and append it. -/
def pass1Step (acc : List MrsNode × List (Int × Nat)) (nr : NodeRecord) :
    Option (List MrsNode × List (Int × Nat)) :=
  (mkConstant nr.constant).map fun const =>
    (acc.1 ++ [nodeOfRecord nr const], (nr.id - 1, acc.1.length) :: acc.2)

/-- Pass 2 for one edge of one node record: resolve the target id through the
index (`none` models the `KeyError` on an unknown id) and append the edge to
the parent node. -/
def pass2Edge (index : List (Int × Nat)) (parent_ind : Nat) (ns : List MrsNode)
    (e : EdgeRecord) : Option (List MrsNode) :=
  (alookup (e.target - 1) index).bind fun child_ind =>
    match ns.get? parent_ind with
    | some pn => some (ns.set parent_ind { pn with edges := pn.edges ++ [(child_ind, e.label)] })
    | none => none

/-- Pass 2 for one node record: resolve the parent index, then process its
edge records in order. -/
def pass2Step (index : List (Int × Nat)) (ns : List MrsNode) (nr : NodeRecord) :
    Option (List MrsNode) :=
  (alookup (nr.id - 1) index).bind fun parent_ind =>
    foldO (pass2Edge index parent_ind) ns nr.edges

/-- `MrsGraph.parse_orig_json_line` from the deserialized record: pass 1
builds the nodes and the id-to-dense-index mapping, pass 2 resolves every
edge's target through that mapping; any failure propagates. -/
def MrsGraph.parse_orig_json_line (rec : ParseRecord) : Option MrsGraph :=
  (foldO pass1Step ([], []) rec.nodes).bind fun p1 =>
    (foldO (pass2Step p1.2) p1.1 rec.nodes).map fun nodes =>
      { nodes := nodes, parse_id := rec.id }

/-!
## Spec-described variants of the span-list and reconciler

These two definitions follow the wording of the specification (section 4.3)
rather than the source; they exist only to be compared against the
source-derived `list_spans` and `reconcile`.
-/

/-- The span list as the spec describes it: order preserved and duplicates
kept (the source instead collects the spans into a set). -/
def list_spans_dup (triples : List (List Char)) : List (List Char) :=
  triples.foldl (fun acc t => acc ++ tripleSpans t) []

/-- The reconciler as the spec describes it: the second (delta = -1) pass
enumerates the spans of the current, already-mutated predicted collection,
recomputed at the start of that pass (the source computes the spans once,
before the first pass). -/
def reconcile_recomputed (gold_spans predicted_triples : List (List Char)) :
    Option (List (List Char)) :=
  let spans1 := list_spans predicted_triples
  (inc_end_spans spans1).bind fun incs =>
  let t1 := replace_new_spans gold_spans (spans1.zip incs) predicted_triples
  let spans2 := list_spans t1
  (dec_end_spans spans2).bind fun decs =>
  some (replace_new_spans gold_spans (spans2.zip decs) t1)

/-!
## State-passing model of the scorer

Python mutates exactly one thing after graph construction: the freshly
extracted predicted-triples list, rewritten in place by `replace_new_spans`
(`predicted_triples[j] = triple.replace(...)`).  The graphs are only read.
To make that frame property a statement rather than a vacuity of the pure
embedding, the scorer is restated over an explicit state holding the two
corpora and the mutable triple buffer; each invocation threads the state.
-/

/-- The state of a scoring run: the two corpora loaded by the main program
and the mutable `predicted_triples` buffer of the current item. -/
structure ScorerState where
  gold_graphs : List (Int × MrsGraph)
  predicted_graphs : List (Int × MrsGraph)
  scratch : List (List Char)
deriving DecidableEq

/-- One `replace_new_spans` pass as an in-place update of the buffer. -/
def replacePassSt (gold_spans : List (List Char))
    (pairs : List (List Char × List Char)) (st : ScorerState) : ScorerState :=
  pairs.foldl
    (fun s pr =>
      if pr.1 ∉ gold_spans ∧ pr.2 ∈ gold_spans then
        { s with scratch := s.scratch.map fun t => pyReplace pr.1 pr.2 t }
      else s)
    st

/-- One gold item in the stateful scorer: load the extracted predicted
triples into the buffer, run both shift passes on it in place, then read it
back for the set comparison.  On a span exception the state reached so far
is returned with `none`. -/
def scoreItemSt (cfg : F1Config) (st : ScorerState) (acc : Totals)
    (item : Int × MrsGraph) : ScorerState × Option Totals :=
  let st1 := { st with scratch := itemPredRaw st.predicted_graphs cfg item }
  let gold_spans := list_spans (itemGold st.predicted_graphs cfg item)
  let predicted_spans := list_spans st1.scratch
  match inc_end_spans predicted_spans with
  | none => (st1, none)
  | some incs =>
    let st2 := replacePassSt gold_spans (predicted_spans.zip incs) st1
    match dec_end_spans predicted_spans with
    | none => (st2, none)
    | some decs =>
      let st3 := replacePassSt gold_spans (predicted_spans.zip decs) st2
      (st3, some (itemTotals st.predicted_graphs cfg acc item st3.scratch))

/-- The accumulation loop of the stateful scorer, threading the state also
through a failing item (where Python's exception aborts the run). -/
def runItems (cfg : F1Config) : ScorerState → Totals → List (Int × MrsGraph) →
    ScorerState × Option Totals
  | st, acc, [] => (st, some acc)
  | st, acc, item :: rest =>
    match scoreItemSt cfg st acc item with
    | (st', none) => (st', none)
    | (st', some acc') => runItems cfg st' acc' rest

/-- One `compute_f1` invocation in the stateful model. -/
def computeF1St (st : ScorerState) (cfg : F1Config) :
    ScorerState × Except F1Error (ℚ × ℚ × ℚ) :=
  match runItems cfg st ⟨0, 0, 0, 0⟩ st.gold_graphs with
  | (st', none) => (st', .error .spanError)
  | (st', some t) =>
    (st',
     if t.total_predicted = 0 ∨ t.total_gold = 0 then .error .noCorrect
     else
       let p : ℚ := (t.total_correct : ℚ) / (t.total_predicted : ℚ)
       let r : ℚ := (t.total_correct : ℚ) / (t.total_gold : ℚ)
       if p + r = 0 then .error .zeroDivision
       else .ok (p, r, 2 * p * r / (p + r)))

/-- A sequence of scorer invocations on the same state, as the main program
performs with its several configurations. -/
def runScorer : ScorerState → List F1Config → ScorerState × List (Except F1Error (ℚ × ℚ × ℚ))
  | st, [] => (st, [])
  | st, cfg :: cfgs =>
    let (st1, res) := computeF1St st cfg
    let (st2, ress) := runScorer st1 cfgs
    (st2, res :: ress)

/-!
## Lemmas about the string infrastructure
-/

theorem natStrAux_congr : ∀ n f1 f2, n < f1 → n < f2 → natStrAux f1 n = natStrAux f2 n := by
  intro n
  induction n using Nat.strong_induction_on with
  | _ n ih =>
    intro f1 f2 h1 h2
    cases f1 with
    | zero => omega
    | succ f1' =>
      cases f2 with
      | zero => omega
      | succ f2' =>
        show (if n < 10 then [digitC n] else natStrAux f1' (n / 10) ++ [digitC (n % 10)])
          = (if n < 10 then [digitC n] else natStrAux f2' (n / 10) ++ [digitC (n % 10)])
        by_cases h : n < 10
        · simp [h]
        · have hd : n / 10 < n := Nat.div_lt_self (by omega) (by omega)
          simp only [if_neg h]
          rw [ih (n / 10) hd f1' f2' (by omega) (by omega)]

theorem natStr_eq (n : Nat) :
    natStr n = if n < 10 then [digitC n] else natStr (n / 10) ++ [digitC (n % 10)] := by
  show natStrAux (n + 1) n = _
  show (if n < 10 then [digitC n] else natStrAux n (n / 10) ++ [digitC (n % 10)]) = _
  by_cases h : n < 10
  · simp [h]
  · have hd : n / 10 < n := Nat.div_lt_self (by omega) (by omega)
    simp only [if_neg h]
    rw [natStrAux_congr (n / 10) n (n / 10 + 1) hd (by omega)]
    rfl

theorem natStr_ne_nil (n : Nat) : natStr n ≠ [] := by
  rw [natStr_eq]
  split <;> simp

theorem natStr_chars (n : Nat) : ∀ c ∈ natStr n, ∃ d, d < 10 ∧ c = digitC d := by
  induction n using Nat.strong_induction_on with
  | _ n ih =>
    intro c hc
    rw [natStr_eq] at hc
    by_cases h : n < 10
    · rw [if_pos h] at hc
      simp only [List.mem_singleton] at hc
      exact ⟨n, h, hc⟩
    · rw [if_neg h] at hc
      rcases List.mem_append.mp hc with h1 | h2
      · exact ih (n / 10) (Nat.div_lt_self (by omega) (by omega)) c h1
      · simp only [List.mem_singleton] at h2
        exact ⟨n % 10, Nat.mod_lt _ (by omega), h2⟩

theorem digitC_ne_special : ∀ d, d < 10 →
    digitC d ≠ ':' ∧ digitC d ≠ ' ' ∧ digitC d ≠ '-' ∧ digitC d ≠ '+' := by decide

theorem digitVal?_digitC : ∀ d, d < 10 → digitVal? (digitC d) = some d := by decide

theorem parseNatAux_append (xs : List Char) :
    ∀ (acc : Option Nat) (ys : List Char),
      parseNatAux acc (xs ++ ys) = parseNatAux (parseNatAux acc xs) ys := by
  induction xs with
  | nil => intro acc ys; rfl
  | cons c cs ih =>
    intro acc ys
    show parseNatAux _ (cs ++ ys) = _
    rw [ih]
    rfl

theorem parseNatAux_natStr (n : Nat) :
    ∀ a, parseNatAux (some a) (natStr n) = some (a * 10 ^ (natStr n).length + n) := by
  induction n using Nat.strong_induction_on with
  | _ n ih =>
    intro a
    rw [natStr_eq]
    by_cases h : n < 10
    · rw [if_pos h]
      show parseNatAux ((digitVal? (digitC n)).map fun d => a * 10 + d) [] = _
      rw [digitVal?_digitC n h]
      show some (a * 10 + n) = some (a * 10 ^ 1 + n)
      rw [pow_one]
    · rw [if_neg h]
      rw [parseNatAux_append]
      rw [ih (n / 10) (Nat.div_lt_self (by omega) (by omega)) a]
      show parseNatAux ((digitVal? (digitC (n % 10))).map
        fun d => (a * 10 ^ (natStr (n / 10)).length + n / 10) * 10 + d) [] = _
      rw [digitVal?_digitC (n % 10) (Nat.mod_lt _ (by omega))]
      show some ((a * 10 ^ (natStr (n / 10)).length + n / 10) * 10 + n % 10)
        = some (a * 10 ^ (natStr (n / 10) ++ [digitC (n % 10)]).length + n)
      congr 1
      have h2 : n / 10 * 10 + n % 10 = n := by omega
      rw [List.length_append, List.length_singleton, pow_succ]
      calc (a * 10 ^ (natStr (n / 10)).length + n / 10) * 10 + n % 10
          = a * (10 ^ (natStr (n / 10)).length * 10) + (n / 10 * 10 + n % 10) := by ring
        _ = a * (10 ^ (natStr (n / 10)).length * 10) + n := by rw [h2]

theorem parseNat_natStr (n : Nat) : parseNat (natStr n) = some n := by
  cases h : natStr n with
  | nil => exact absurd h (natStr_ne_nil n)
  | cons c cs =>
    show parseNatAux (some 0) (c :: cs) = some n
    rw [← h, parseNatAux_natStr]
    simp

theorem natStr_inj {m n : Nat} (h : natStr m = natStr n) : m = n := by
  have := parseNat_natStr m
  rw [h, parseNat_natStr] at this
  exact (Option.some.inj this).symm

theorem intStr_chars (i : Int) : ∀ c ∈ intStr i, c = '-' ∨ ∃ d, d < 10 ∧ c = digitC d := by
  intro c hc
  cases i with
  | ofNat n => exact Or.inr (natStr_chars n c hc)
  | negSucc n =>
    rcases List.mem_cons.mp hc with h | h
    · exact Or.inl h
    · exact Or.inr (natStr_chars (n + 1) c h)

theorem colon_not_mem_intStr (i : Int) : ':' ∉ intStr i := by
  intro h
  rcases intStr_chars i ':' h with h1 | ⟨d, hd, h2⟩
  · exact absurd h1 (by decide)
  · exact absurd h2.symm (digitC_ne_special d hd).1

theorem space_not_mem_intStr (i : Int) : ' ' ∉ intStr i := by
  intro h
  rcases intStr_chars i ' ' h with h1 | ⟨d, hd, h2⟩
  · exact absurd h1 (by decide)
  · exact absurd h2.symm (digitC_ne_special d hd).2.1

theorem dash_not_mem_natStr (n : Nat) : '-' ∉ natStr n := by
  intro h
  rcases natStr_chars n '-' h with ⟨d, hd, h2⟩
  exact absurd h2.symm (digitC_ne_special d hd).2.2.1

theorem intStr_inj {i j : Int} (h : intStr i = intStr j) : i = j := by
  cases i with
  | ofNat m =>
    cases j with
    | ofNat n => exact congrArg Int.ofNat (natStr_inj h)
    | negSucc n =>
      exfalso
      apply dash_not_mem_natStr m
      rw [show intStr (Int.ofNat m) = natStr m from rfl] at h
      rw [h]
      exact List.mem_cons_self _ _
  | negSucc m =>
    cases j with
    | ofNat n =>
      exfalso
      apply dash_not_mem_natStr n
      rw [show intStr (Int.ofNat n) = natStr n from rfl] at h
      rw [← h]
      exact List.mem_cons_self _ _
    | negSucc n =>
      have h2 := List.cons.inj h
      have h3 : m = n := by have := natStr_inj h2.2; omega
      rw [h3]

theorem pyInt?_intStr (i : Int) : pyInt? (intStr i) = some i := by
  cases i with
  | ofNat n =>
    cases h : natStr n with
    | nil => exact absurd h (natStr_ne_nil n)
    | cons c cs =>
      have hc : c ∈ natStr n := by rw [h]; exact List.mem_cons_self _ _
      obtain ⟨d, hd, hcd⟩ := natStr_chars n c hc
      have hc1 : ¬(c = '-') := by rw [hcd]; exact (digitC_ne_special d hd).2.2.1
      have hc2 : ¬(c = '+') := by rw [hcd]; exact (digitC_ne_special d hd).2.2.2
      show pyInt? (natStr n) = some (Int.ofNat n)
      rw [h]
      show (if c = '-' then _ else if c = '+' then _ else (parseNat (c :: cs)).map fun n => (n : Int)) = _
      rw [if_neg hc1, if_neg hc2, ← h, parseNat_natStr]
      rfl
  | negSucc n =>
    show pyInt? ('-' :: natStr (n + 1)) = some (Int.negSucc n)
    have h1 : pyInt? ('-' :: natStr (n + 1))
        = (parseNat (natStr (n + 1))).map fun k => -(k : Int) := by
      simp [pyInt?]
    rw [h1, parseNat_natStr]
    simp [Int.negSucc_eq]

theorem pySplit_ne_nil (sep : Char) (s : List Char) : pySplit sep s ≠ [] := by
  cases s with
  | nil => simp [pySplit]
  | cons c cs =>
    show (if c = sep then [] :: pySplit sep cs
      else match pySplit sep cs with
        | [] => [[c]]
        | p :: ps => (c :: p) :: ps) ≠ []
    split
    · simp
    · split <;> simp

theorem pySplit_nosep {sep : Char} {xs : List Char} (h : sep ∉ xs) :
    pySplit sep xs = [xs] := by
  induction xs with
  | nil => rfl
  | cons c cs ih =>
    have hc : ¬(c = sep) := fun hc => h (hc ▸ List.mem_cons_self _ _)
    have ihcs := ih (fun hm => h (List.mem_cons_of_mem _ hm))
    show (if c = sep then [] :: pySplit sep cs
      else match pySplit sep cs with
        | [] => [[c]]
        | p :: ps => (c :: p) :: ps) = [c :: cs]
    rw [if_neg hc, ihcs]

theorem pySplit_append {sep : Char} {xs : List Char} (h : sep ∉ xs) (ys : List Char) :
    pySplit sep (xs ++ sep :: ys) = xs :: pySplit sep ys := by
  induction xs with
  | nil =>
    show (if sep = sep then [] :: pySplit sep ys else _) = [] :: pySplit sep ys
    rw [if_pos rfl]
  | cons c cs ih =>
    have hc : ¬(c = sep) := fun hc => h (hc ▸ List.mem_cons_self _ _)
    have ihcs := ih (fun hm => h (List.mem_cons_of_mem _ hm))
    show (if c = sep then [] :: pySplit sep (cs ++ sep :: ys)
      else match pySplit sep (cs ++ sep :: ys) with
        | [] => [[c]]
        | p :: ps => (c :: p) :: ps) = (c :: cs) :: pySplit sep ys
    rw [if_neg hc, ihcs]

theorem sep_append_inj {sep : Char} {s t u v : List Char}
    (hs : sep ∉ s) (ht : sep ∉ t) (h : s ++ sep :: u = t ++ sep :: v) :
    s = t ∧ u = v := by
  have h1 : pySplit sep (s ++ sep :: u) = s :: pySplit sep u := pySplit_append hs u
  have h2 : pySplit sep (t ++ sep :: v) = t :: pySplit sep v := pySplit_append ht v
  rw [h, h2] at h1
  have hst : t = s := (List.cons.inj h1).1
  subst hst
  refine ⟨rfl, ?_⟩
  have := List.append_cancel_left h
  exact (List.cons.inj this).2

/-!
## Lemmas about spans, `list_spans`, and the reconciliation passes
-/

/-- A genuine span string with its end equal to its start, as `span_str`
produces when span ends are excluded (including the root marker `-1:-1`). -/
def selfSpan (s : List Char) : Prop := ∃ i : Int, s = intStr i ++ ':' :: intStr i

theorem span_str_false (node : MrsNode) :
    node.span_str false = intStr node.start ++ ':' :: intStr node.start := rfl

theorem space_not_mem_span_str (node : MrsNode) (ise : Bool) :
    ' ' ∉ node.span_str ise := by
  intro h
  unfold MrsNode.span_str at h
  split at h <;>
  · rcases List.mem_append.mp h with h1 | h1
    · exact space_not_mem_intStr _ h1
    · rcases List.mem_cons.mp h1 with h2 | h2
      · exact absurd h2 (by decide)
      · exact space_not_mem_intStr _ h2

theorem mem_addSpan {acc : List (List Char)} {x s : List Char} :
    s ∈ addSpan acc x ↔ s ∈ acc ∨ s = x := by
  unfold addSpan
  split
  · constructor
    · exact Or.inl
    · rintro (h | rfl) <;> assumption
  · simp [List.mem_append]

theorem addSpan_nodup {acc : List (List Char)} (h : acc.Nodup) (x : List Char) :
    (addSpan acc x).Nodup := by
  unfold addSpan
  split
  · exact h
  · next hx => exact List.Nodup.append h (List.nodup_singleton x) (by simpa using hx)

theorem foldl_addSpan_mem (l : List (List Char)) :
    ∀ (acc : List (List Char)) (s : List Char),
      s ∈ l.foldl addSpan acc ↔ s ∈ acc ∨ s ∈ l := by
  induction l with
  | nil => simp
  | cons x xs ih =>
    intro acc s
    show s ∈ xs.foldl addSpan (addSpan acc x) ↔ _
    rw [ih, mem_addSpan]
    simp [List.mem_cons]
    tauto

theorem foldl_addSpan_nodup (l : List (List Char)) :
    ∀ acc : List (List Char), acc.Nodup → (l.foldl addSpan acc).Nodup := by
  induction l with
  | nil => intro acc h; exact h
  | cons x xs ih => intro acc h; exact ih _ (addSpan_nodup h x)

theorem mem_list_spans_aux (ts : List (List Char)) :
    ∀ (acc : List (List Char)) (s : List Char),
      s ∈ ts.foldl (fun acc t => (tripleSpans t).foldl addSpan acc) acc ↔
        s ∈ acc ∨ ∃ t ∈ ts, s ∈ tripleSpans t := by
  induction ts with
  | nil => simp
  | cons t ts ih =>
    intro acc s
    show s ∈ ts.foldl _ ((tripleSpans t).foldl addSpan acc) ↔ _
    rw [ih, foldl_addSpan_mem]
    simp [List.mem_cons]
    tauto

theorem mem_list_spans {ts : List (List Char)} {s : List Char} :
    s ∈ list_spans ts ↔ ∃ t ∈ ts, s ∈ tripleSpans t := by
  unfold list_spans
  rw [mem_list_spans_aux]
  simp

theorem list_spans_nodup (ts : List (List Char)) : (list_spans ts).Nodup := by
  unfold list_spans
  have : ∀ (l : List (List Char)) (acc : List (List Char)), acc.Nodup →
      (l.foldl (fun acc t => (tripleSpans t).foldl addSpan acc) acc).Nodup := by
    intro l
    induction l with
    | nil => intro acc h; exact h
    | cons t ts ih => intro acc h; exact ih _ (foldl_addSpan_nodup _ _ h)
  exact this _ [] List.nodup_nil

theorem mem_list_spans_dup {ts : List (List Char)} {s : List Char} :
    s ∈ list_spans_dup ts ↔ ∃ t ∈ ts, s ∈ tripleSpans t := by
  unfold list_spans_dup
  have : ∀ (l : List (List Char)) (acc : List (List Char)),
      s ∈ l.foldl (fun acc t => acc ++ tripleSpans t) acc ↔
        s ∈ acc ∨ ∃ t ∈ l, s ∈ tripleSpans t := by
    intro l
    induction l with
    | nil => simp
    | cons t ts ih =>
      intro acc
      show s ∈ ts.foldl _ (acc ++ tripleSpans t) ↔ _
      rw [ih]
      simp [List.mem_append, List.mem_cons]
      tauto
  rw [this]
  simp

theorem replace_new_spans_id {gs : List (List Char)}
    {pairs : List (List Char × List Char)} (ts : List (List Char))
    (h : ∀ pr ∈ pairs, pr.1 ∈ gs ∨ pr.2 ∉ gs) :
    replace_new_spans gs pairs ts = ts := by
  induction pairs generalizing ts with
  | nil => rfl
  | cons pr rest ih =>
    show List.foldl _ (if pr.1 ∉ gs ∧ pr.2 ∈ gs then _ else ts) rest = ts
    have hpr := h pr (List.mem_cons_self _ _)
    rw [if_neg (by tauto)]
    exact ih ts fun q hq => h q (List.mem_cons_of_mem _ hq)

theorem mapO_eq_some {f : α → Option β} {g : α → β} {l : List α}
    (h : ∀ a ∈ l, f a = some (g a)) : mapO f l = some (l.map g) := by
  induction l with
  | nil => rfl
  | cons a l ih =>
    show (f a).bind _ = _
    rw [h a (List.mem_cons_self _ _), ih fun a ha => h a (List.mem_cons_of_mem _ ha)]
    rfl

theorem mapO_zip {f : α → Option β} : ∀ {l : List α} {l' : List β},
    mapO f l = some l' → ∀ pr ∈ l.zip l', f pr.1 = some pr.2 := by
  intro l
  induction l with
  | nil => intro l' _ pr hpr; simp [List.zip] at hpr
  | cons a as ih =>
    intro l' hmap pr hpr
    have hmap' : (f a).bind (fun b => (mapO f as).map fun bs => b :: bs) = some l' := hmap
    have hb : ∃ b bs, f a = some b ∧ mapO f as = some bs ∧ l' = b :: bs := by
      cases hfa : f a with
      | none => rw [hfa] at hmap'; exact absurd hmap' (by simp)
      | some b =>
        rw [hfa] at hmap'
        cases hms : mapO f as with
        | none => rw [hms] at hmap'; exact absurd hmap' (by simp)
        | some bs =>
          rw [hms] at hmap'
          exact ⟨b, bs, rfl, rfl, by simpa using hmap'.symm⟩
    obtain ⟨b, bs, hfa, hms, rfl⟩ := hb
    rcases List.mem_cons.mp hpr with rfl | hpr2
    · exact hfa
    · exact ih hms pr hpr2

theorem foldO_isSome {f : σ → α → Option σ} : ∀ {l : List α} {acc b : σ},
    foldO f acc l = some b → ∀ x ∈ l, ∃ a, (f a x).isSome := by
  intro l
  induction l with
  | nil => intro acc b _ x hx; simp at hx
  | cons y ys ih =>
    intro acc b hfold x hx
    have hfold' : (f acc y).bind (fun s' => foldO f s' ys) = some b := hfold
    have hy : ∃ a1, f acc y = some a1 := by
      cases hfa : f acc y with
      | none => rw [hfa] at hfold'; exact absurd hfold' (by simp)
      | some a1 => exact ⟨a1, rfl⟩
    obtain ⟨a1, ha1⟩ := hy
    rcases List.mem_cons.mp hx with rfl | hx2
    · exact ⟨acc, by rw [ha1]; rfl⟩
    · have : foldO f a1 ys = some b := by rw [ha1] at hfold'; exact hfold'
      exact ih this x hx2

theorem shift_selfSpan (δ i : Int) :
    shift_end_span δ (intStr i ++ ':' :: intStr i) = some (intStr i ++ ':' :: intStr (i + δ)) := by
  unfold shift_end_span
  rw [pySplit_append (colon_not_mem_intStr i), pySplit_nosep (colon_not_mem_intStr i)]
  show (pyInt? (intStr i)).map _ = _
  rw [pyInt?_intStr]
  rfl

theorem selfSpan_ne_shifted {i j δ : Int} (hδ : δ ≠ 0) :
    intStr i ++ ':' :: intStr (i + δ) ≠ intStr j ++ ':' :: intStr j := by
  intro h
  obtain ⟨h1, h2⟩ := sep_append_inj (colon_not_mem_intStr i) (colon_not_mem_intStr j) h
  have hij : i = j := intStr_inj h1
  have hij2 : i + δ = j := intStr_inj h2
  omega

/-!
## Relation-triple shape lemmas
-/

theorem span_str_congr {p c : MrsNode} (ise : Bool)
    (hs : p.start = c.start) (he : p.end_ = c.end_) :
    p.span_str ise = c.span_str ise := by
  unfold MrsNode.span_str
  rw [hs, he]

/-- The endpoint swap makes the `/EQ` triple independent of which endpoint is
the edge's source, for any `include_span_ends` / `labeled` setting. -/
theorem relationTripleFor_eq_comm (ise labeled : Bool) (p c : MrsNode) :
    relationTripleFor ise labeled p c tokEQ = relationTripleFor ise labeled c p tokEQ := by
  simp only [relationTripleFor, true_and]
  by_cases h1 : p.start > c.start ∨ p.start = c.start ∧ p.end_ > c.end_
  · have h2 : ¬(c.start > p.start ∨ c.start = p.start ∧ c.end_ > p.end_) := by omega
    rw [if_pos h1, if_neg h2]
  · by_cases h2 : c.start > p.start ∨ c.start = p.start ∧ c.end_ > p.end_
    · rw [if_neg h1, if_pos h2]
    · have hs : p.start = c.start := by omega
      have he : p.end_ = c.end_ := by omega
      rw [if_neg h1, if_neg h2, span_str_congr ise hs he]

/-- With `labeled = false` every edge triple carries the placeholder label
`REL` between two span strings, whatever the edge's relation was. -/
theorem relationTripleFor_unlabeled_shape (ise : Bool) (p c : MrsNode) (rel : List Char) :
    ∃ x y : MrsNode,
      relationTripleFor ise false p c rel
        = x.span_str ise ++ ' ' :: (tokREL ++ ' ' :: y.span_str ise) := by
  have hlab : relLabel false rel = tokREL := by
    show (if tokREL = tokEQ then tokEQU else tokREL) = tokREL
    rw [if_neg (by decide)]
  simp only [relationTripleFor, hlab]
  by_cases h1 : rel = tokEQ ∧ (p.start > c.start ∨ p.start = c.start ∧ p.end_ > c.end_)
  · exact ⟨c, p, by rw [if_pos h1]⟩
  · exact ⟨p, c, by rw [if_neg h1]⟩

/-- Membership in `relation_triples`: a root-marker triple of a top node, or
the per-edge triple of some node's edge. -/
theorem mem_relation_triples {g : MrsGraph} {ise lab : Bool} {t : List Char} :
    t ∈ g.relation_triples ise lab ↔
      (∃ n ∈ g.nodes, n.top = true ∧ t = rootMark ++ n.span_str ise) ∨
      (∃ n ∈ g.nodes, ∃ e ∈ n.edges,
        t = relationTripleFor ise lab n (g.nodes.getD e.1 default) e.2) := by
  unfold MrsGraph.relation_triples
  rw [List.mem_append]
  constructor
  · rintro (h | h)
    · obtain ⟨n, hn, ht⟩ := List.mem_flatMap.mp h
      by_cases htop : n.top
      · rw [if_pos htop] at ht
        exact Or.inl ⟨n, hn, htop, (List.mem_singleton.mp ht)⟩
      · rw [if_neg htop] at ht
        exact absurd ht (List.not_mem_nil t)
    · obtain ⟨n, hn, ht⟩ := List.mem_flatMap.mp h
      obtain ⟨e, he, ht2⟩ := List.mem_map.mp ht
      exact Or.inr ⟨n, hn, e, he, ht2.symm⟩
  · rintro (⟨n, hn, htop, ht⟩ | ⟨n, hn, e, he, ht⟩)
    · exact Or.inl (List.mem_flatMap.mpr ⟨n, hn, by rw [if_pos htop]; exact List.mem_singleton.mpr ht⟩)
    · exact Or.inr (List.mem_flatMap.mpr ⟨n, hn, List.mem_map.mpr ⟨e, he, ht.symm⟩⟩)

/-- C3: for every graph and pair of nodes `A`, `B`, the relation triple
emitted for an `/EQ` (equality) edge is orientation-canonical: the edge
`(A, B, /EQ)` and the reversed edge `(B, A, /EQ)` serialize identically,
because the extractor compares `(start, end)` pairs lexicographically and
swaps the two span strings when the parent is not `≤` the child; in
particular the two one-edge graphs differing only in the edge's direction
produce identical relation-triple lists. -/
theorem eq_edge_orientation_canonical (ise labeled : Bool) (A B : MrsNode) (pid : Int) :
    relationTripleFor ise labeled A B tokEQ = relationTripleFor ise labeled B A tokEQ ∧
    MrsGraph.relation_triples
        ⟨[{ A with edges := [(1, tokEQ)] }, { B with edges := [] }], pid⟩ ise labeled
      = MrsGraph.relation_triples
        ⟨[{ A with edges := [] }, { B with edges := [(0, tokEQ)] }], pid⟩ ise labeled := by
  constructor
  · exact relationTripleFor_eq_comm ise labeled A B
  · unfold MrsGraph.relation_triples
    simp only [List.flatMap_cons, List.flatMap_nil, List.map_cons, List.map_nil,
      List.append_nil, List.nil_append, List.getD]
    congr 1
    show [relationTripleFor ise labeled { A with edges := [(1, tokEQ)] }
        ({ B with edges := [] }) tokEQ]
      = [relationTripleFor ise labeled { B with edges := [(0, tokEQ)] }
        ({ A with edges := [] }) tokEQ]
    congr 1
    have h1 : relationTripleFor ise labeled { A with edges := [(1, tokEQ)] }
        ({ B with edges := [] }) tokEQ
        = relationTripleFor ise labeled { B with edges := [] }
          ({ A with edges := [(1, tokEQ)] }) tokEQ :=
      relationTripleFor_eq_comm ise labeled _ _
    rw [h1]
    rfl

/-- C10: with `labeled = false`, every relation triple is either a
root-marker triple keeping its fixed `/H` label, or an edge triple carrying
the generic placeholder `REL` between two span strings (so an `/EQ` edge
also serializes with `REL` and never with the `/EQ/U` merged tag); the
endpoint-swap canonicalization of `/EQ` edges still applies. -/
theorem unlabeled_relation_labels :
    (∀ (g : MrsGraph) (ise : Bool), ∀ t ∈ g.relation_triples ise false,
        (∃ n ∈ g.nodes, n.top = true ∧ t = rootMark ++ n.span_str ise) ∨
        (∃ x y : MrsNode, t = x.span_str ise ++ ' ' :: (tokREL ++ ' ' :: y.span_str ise))) ∧
    (∀ (ise : Bool) (p c : MrsNode),
        relationTripleFor ise false p c tokEQ = relationTripleFor ise false c p tokEQ) := by
  constructor
  · intro g ise t ht
    rcases mem_relation_triples.mp ht with h | ⟨n, _, e, _, ht2⟩
    · exact Or.inl h
    · obtain ⟨x, y, hxy⟩ := relationTripleFor_unlabeled_shape ise n (g.nodes.getD e.1 default) e.2
      exact Or.inr ⟨x, y, ht2.trans hxy⟩
  · intro ise p c
    exact relationTripleFor_eq_comm ise false p c

/-!
## Lemmas about graph construction
-/

theorem alookup_mem : ∀ {l : List (Int × Nat)} {k : Int} {v : Nat},
    alookup k l = some v → (k, v) ∈ l := by
  intro l
  induction l with
  | nil => intro k v h; exact absurd h (by simp [alookup])
  | cons kv rest ih =>
    intro k v h
    obtain ⟨k', v'⟩ := kv
    rw [show alookup k ((k', v') :: rest) = if k' = k then some v' else alookup k rest
      from rfl] at h
    split at h
    · next heq =>
      injection h with h2
      rw [← heq, h2]
      exact List.mem_cons_self _ _
    · exact List.mem_cons_of_mem _ (ih h)

theorem pass1_index_keys : ∀ (l : List NodeRecord) (acc : List MrsNode × List (Int × Nat))
    (p1 : List MrsNode × List (Int × Nat)),
    foldO pass1Step acc l = some p1 →
    ∀ kv ∈ p1.2, kv ∈ acc.2 ∨ ∃ nr ∈ l, kv.1 = nr.id - 1 := by
  intro l
  induction l with
  | nil =>
    intro acc p1 h kv hkv
    have hacc : acc = p1 := Option.some.inj h
    subst hacc
    exact Or.inl hkv
  | cons nr rest ih =>
    intro acc p1 h kv hkv
    have h' : (pass1Step acc nr).bind (fun s' => foldO pass1Step s' rest) = some p1 := h
    cases hstep : pass1Step acc nr with
    | none => rw [hstep] at h'; exact absurd h' (by simp)
    | some acc1 =>
      rw [hstep] at h'
      have hrest : foldO pass1Step acc1 rest = some p1 := h'
      have hsnd : acc1.2 = (nr.id - 1, acc.1.length) :: acc.2 := by
        simp only [pass1Step] at hstep
        cases hmk : mkConstant nr.constant with
        | none => rw [hmk] at hstep; exact absurd hstep (by simp)
        | some const =>
          rw [hmk] at hstep
          have h2 := Option.some.inj hstep
          rw [← h2]
      rcases ih acc1 p1 hrest kv hkv with h1 | ⟨nr', hnr', h2⟩
      · rw [hsnd] at h1
        rcases List.mem_cons.mp h1 with h3 | h3
        · exact Or.inr ⟨nr, List.mem_cons_self _ _, by rw [h3]⟩
        · exact Or.inl h3
      · exact Or.inr ⟨nr', List.mem_cons_of_mem _ hnr', h2⟩

/-- C5: a record containing an edge whose numeric target id matches no node
id in the record fails graph construction (the `KeyError` propagates); the
edge is never dropped and no default target is substituted. -/
theorem unknown_target_fails (rec : ParseRecord) (node : NodeRecord) (edge : EdgeRecord)
    (hn : node ∈ rec.nodes) (he : edge ∈ node.edges)
    (hbad : ∀ nr ∈ rec.nodes, nr.id ≠ edge.target) :
    MrsGraph.parse_orig_json_line rec = none := by
  cases hp : MrsGraph.parse_orig_json_line rec with
  | none => rfl
  | some g =>
    exfalso
    unfold MrsGraph.parse_orig_json_line at hp
    cases h1 : foldO pass1Step ([], []) rec.nodes with
    | none => rw [h1] at hp; exact absurd hp (by simp)
    | some p1 =>
      rw [h1] at hp
      have hp2 : (foldO (pass2Step p1.2) p1.1 rec.nodes).map
          (fun nodes => { nodes := nodes, parse_id := rec.id : MrsGraph }) = some g := hp
      have h2 : ∃ ns, foldO (pass2Step p1.2) p1.1 rec.nodes = some ns := by
        cases h2' : foldO (pass2Step p1.2) p1.1 rec.nodes with
        | none => rw [h2'] at hp2; exact absurd hp2 (by simp)
        | some ns => exact ⟨ns, rfl⟩
      obtain ⟨ns, h2⟩ := h2
      obtain ⟨ns', hstep⟩ := foldO_isSome h2 node hn
      have hstep' : ((alookup (node.id - 1) p1.2).bind
          (fun parent_ind => foldO (pass2Edge p1.2 parent_ind) ns' node.edges)).isSome := hstep
      cases h3 : alookup (node.id - 1) p1.2 with
      | none => rw [h3] at hstep'; exact absurd hstep' (by simp)
      | some pi =>
        rw [h3] at hstep'
        have h4 : ∃ ns2, foldO (pass2Edge p1.2 pi) ns' node.edges = some ns2 :=
          Option.isSome_iff_exists.mp hstep'
        obtain ⟨ns2, h4⟩ := h4
        obtain ⟨ns3, hstep2⟩ := foldO_isSome h4 edge he
        have hstep2' : ((alookup (edge.target - 1) p1.2).bind
            (fun child_ind =>
              match ns3.get? pi with
              | some pn => some (ns3.set pi
                  { pn with edges := pn.edges ++ [(child_ind, edge.label)] })
              | none => none)).isSome := hstep2
        cases h5 : alookup (edge.target - 1) p1.2 with
        | none => rw [h5] at hstep2'; exact absurd hstep2' (by simp)
        | some ci =>
          have h6 := alookup_mem h5
          rcases pass1_index_keys rec.nodes ([], []) p1 h1 (edge.target - 1, ci) h6 with
            h7 | ⟨nr, hnr, h8⟩
          · exact absurd h7 (List.not_mem_nil _)
          · have h9 : nr.id = edge.target := by
              have h8' : edge.target - 1 = nr.id - 1 := h8
              omega
            exact hbad nr hnr h9

theorem canonConstant_quotes {c : List Char} (h : c ≠ []) :
    ∃ r, canonConstant c = some r ∧ r.head? = some '"' ∧ r.getLast? = some '"' := by
  cases c with
  | nil => exact absurd rfl h
  | cons ch cs =>
    refine ⟨_, rfl, ?_, ?_⟩
    · show (if (if ch = '"' then ch :: cs else '"' :: ch :: cs).getLast? = some '"'
        then (if ch = '"' then ch :: cs else '"' :: ch :: cs)
        else (if ch = '"' then ch :: cs else '"' :: ch :: cs) ++ ['"']).head? = some '"'
      by_cases hch : ch = '"'
      · rw [if_pos hch]
        split
        · rw [hch]; rfl
        · rw [hch]; rfl
      · rw [if_neg hch]
        split
        · rfl
        · rfl
    · show (if (if ch = '"' then ch :: cs else '"' :: ch :: cs).getLast? = some '"'
        then (if ch = '"' then ch :: cs else '"' :: ch :: cs)
        else (if ch = '"' then ch :: cs else '"' :: ch :: cs) ++ ['"']).getLast? = some '"'
      by_cases hch : ch = '"'
      · rw [if_pos hch]
        split
        · next hl => exact hl
        · exact List.getLast?_concat _
      · rw [if_neg hch]
        split
        · next hl => exact hl
        · exact List.getLast?_concat _

/-- Pass 1 appends exactly one node per record, in record order, with the
canonicalized constant. -/
theorem pass1_nodes : ∀ (l : List NodeRecord) (acc p1 : List MrsNode × List (Int × Nat)),
    foldO pass1Step acc l = some p1 →
    ∃ new : List MrsNode, p1.1 = acc.1 ++ new ∧ new.length = l.length ∧
      ∀ i nr, l.get? i = some nr → ∃ const, mkConstant nr.constant = some const ∧
        new.get? i = some (nodeOfRecord nr const) := by
  intro l
  induction l with
  | nil =>
    intro acc p1 h
    have hacc : acc = p1 := Option.some.inj h
    subst hacc
    exact ⟨[], by simp, rfl, fun i nr hi => absurd hi (by simp)⟩
  | cons nr rest ih =>
    intro acc p1 h
    have h' : (pass1Step acc nr).bind (fun s' => foldO pass1Step s' rest) = some p1 := h
    cases hmk : mkConstant nr.constant with
    | none =>
      exfalso
      have hstep : pass1Step acc nr = none := by
        simp only [pass1Step]
        rw [hmk]
        rfl
      rw [hstep] at h'
      exact absurd h' (by simp)
    | some const =>
      have hstep : pass1Step acc nr
          = some (acc.1 ++ [nodeOfRecord nr const], (nr.id - 1, acc.1.length) :: acc.2) := by
        simp only [pass1Step]
        rw [hmk]
        rfl
      rw [hstep] at h'
      have hrest : foldO pass1Step (acc.1 ++ [nodeOfRecord nr const],
          (nr.id - 1, acc.1.length) :: acc.2) rest = some p1 := h'
      obtain ⟨new', hfst, hlen, hget⟩ := ih _ p1 hrest
      refine ⟨nodeOfRecord nr const :: new', ?_, by simp [hlen], ?_⟩
      · rw [hfst]
        simp
      · intro i nr' hi
        cases i with
        | zero =>
          injection hi with hi'
          subst hi'
          exact ⟨const, hmk, rfl⟩
        | succ j =>
          exact hget j nr' hi

theorem set_self {α : Type} : ∀ {l : List α} {i : Nat} {a : α},
    l.get? i = some a → l.set i a = l := by
  intro l
  induction l with
  | nil => intro i a h; simp at h
  | cons x xs ih =>
    intro i a h
    cases i with
    | zero =>
      injection h with h'
      rw [List.set]
      rw [h']
    | succ j =>
      rw [List.set]
      rw [ih h]

/-- The projection of an `MrsNode` that pass 2 can never change. -/
def nodeCore (n : MrsNode) : List Char × List Char × Int × Int × List Char × Bool :=
  (n.name, n.concept, n.start, n.end_, n.constant, n.top)

theorem pass2Edge_cores {index : List (Int × Nat)} {pi : Nat} {ns ns' : List MrsNode}
    {e : EdgeRecord} (h : pass2Edge index pi ns e = some ns') :
    ns'.map nodeCore = ns.map nodeCore := by
  unfold pass2Edge at h
  cases hl : alookup (e.target - 1) index with
  | none => rw [hl] at h; exact absurd h (by simp)
  | some ci =>
    rw [hl] at h
    have h2 : (match ns.get? pi with
      | some pn => some (ns.set pi { pn with edges := pn.edges ++ [(ci, e.label)] })
      | none => none) = some ns' := h
    cases hg : ns.get? pi with
    | none => rw [hg] at h2; exact absurd h2 (by simp)
    | some pn =>
      rw [hg] at h2
      have h3 := Option.some.inj h2
      rw [← h3, List.map_set]
      have hcore : nodeCore { pn with edges := pn.edges ++ [(ci, e.label)] } = nodeCore pn := rfl
      rw [hcore]
      apply set_self
      rw [List.get?_map, hg]
      rfl

theorem foldO_cores {index : List (Int × Nat)} {pi : Nat} :
    ∀ {edges : List EdgeRecord} {ns ns' : List MrsNode},
    foldO (pass2Edge index pi) ns edges = some ns' → ns'.map nodeCore = ns.map nodeCore := by
  intro edges
  induction edges with
  | nil =>
    intro ns ns' h
    rw [Option.some.inj h]
  | cons e rest ih =>
    intro ns ns' h
    have h' : (pass2Edge index pi ns e).bind
        (fun s' => foldO (pass2Edge index pi) s' rest) = some ns' := h
    cases hstep : pass2Edge index pi ns e with
    | none => rw [hstep] at h'; exact absurd h' (by simp)
    | some ns1 =>
      rw [hstep] at h'
      exact (ih h').trans (pass2Edge_cores hstep)

theorem pass2_cores {index : List (Int × Nat)} :
    ∀ {l : List NodeRecord} {ns ns' : List MrsNode},
    foldO (pass2Step index) ns l = some ns' → ns'.map nodeCore = ns.map nodeCore := by
  intro l
  induction l with
  | nil =>
    intro ns ns' h
    rw [Option.some.inj h]
  | cons nr rest ih =>
    intro ns ns' h
    have h' : (pass2Step index ns nr).bind
        (fun s' => foldO (pass2Step index) s' rest) = some ns' := h
    cases hstep : pass2Step index ns nr with
    | none => rw [hstep] at h'; exact absurd h' (by simp)
    | some ns1 =>
      rw [hstep] at h'
      refine (ih h').trans ?_
      unfold pass2Step at hstep
      cases hl : alookup (nr.id - 1) index with
      | none => rw [hl] at hstep; exact absurd hstep (by simp)
      | some pi =>
        rw [hl] at hstep
        exact foldO_cores hstep

/-- A record whose node supplies the empty string as its constant:
construction fails on it (Python's `const[0]` raises `IndexError`), so no
canonicalized constant is ever stored for this record, refuting the claim
for the empty constant value. -/
def recEmptyConstant : ParseRecord :=
  ⟨1, [{ id := 1, predicate := ['p'], constant := some [], start := 0, end_ := 2 }]⟩

/-- C6 counterexample: a node record supplying the (empty) constant value
makes graph construction fail instead of storing a quote-wrapped value. -/
theorem empty_constant_counterexample :
    MrsGraph.parse_orig_json_line recEmptyConstant = none := rfl

/-- C6 amended: for every node record supplying a nonempty constant value,
construction stores the value canonicalized so that a leading and a
trailing quote character are present, adding either if missing. -/
theorem constant_canonicalized_amended (rec : ParseRecord) (g : MrsGraph) (i : Nat)
    (nr : NodeRecord) (c : List Char)
    (hp : MrsGraph.parse_orig_json_line rec = some g)
    (hi : rec.nodes.get? i = some nr) (hc : nr.constant = some c) (hne : c ≠ []) :
    ∃ gn, g.nodes.get? i = some gn ∧ canonConstant c = some gn.constant ∧
      gn.constant.head? = some '"' ∧ gn.constant.getLast? = some '"' := by
  unfold MrsGraph.parse_orig_json_line at hp
  cases h1 : foldO pass1Step ([], []) rec.nodes with
  | none => rw [h1] at hp; exact absurd hp (by simp)
  | some p1 =>
    rw [h1] at hp
    have hp2 : (foldO (pass2Step p1.2) p1.1 rec.nodes).map
        (fun nodes => { nodes := nodes, parse_id := rec.id : MrsGraph }) = some g := hp
    cases h2 : foldO (pass2Step p1.2) p1.1 rec.nodes with
    | none => rw [h2] at hp2; exact absurd hp2 (by simp)
    | some ns =>
      rw [h2] at hp2
      have hg : ({ nodes := ns, parse_id := rec.id : MrsGraph }) = g := Option.some.inj hp2
      obtain ⟨new, hfst, _, hget⟩ := pass1_nodes rec.nodes ([], []) p1 h1
      obtain ⟨const, hmk, hnew⟩ := hget i nr hi
      rw [hc] at hmk
      have hcanon : canonConstant c = some const := hmk
      have hcores : ns.map nodeCore = p1.1.map nodeCore := pass2_cores h2
      have hp1i : p1.1.get? i = some (nodeOfRecord nr const) := by
        rw [hfst]
        simpa using hnew
      have hmap : (ns.map nodeCore).get? i = some (nodeCore (nodeOfRecord nr const)) := by
        rw [hcores, List.get?_map, hp1i]
        rfl
      rw [List.get?_map] at hmap
      cases hns : ns.get? i with
      | none => rw [hns] at hmap; exact absurd hmap (by simp)
      | some gn =>
        rw [hns] at hmap
        have hcore : nodeCore gn = nodeCore (nodeOfRecord nr const) := Option.some.inj hmap
        have hconst : gn.constant = const := congrArg (fun t => t.2.2.2.2.1) hcore
        obtain ⟨r, hr, hrh, hrl⟩ := canonConstant_quotes hne
        have hrconst : r = const := by
          rw [hcanon] at hr
          exact (Option.some.inj hr).symm
        refine ⟨gn, ?_, ?_, ?_, ?_⟩
        · rw [← hg]
          exact hns
        · rw [hcanon, hconst]
        · rw [hconst, ← hrconst]
          exact hrh
        · rw [hconst, ← hrconst]
          exact hrl

/-!
## Scorer lemmas: the invalid-run failure
-/

theorem reconcile_nil (gs : List (List Char)) : reconcile gs [] = some [] := rfl

theorem scoreItem_empty_predicted (cfg : F1Config) (acc : Totals) (item : Int × MrsGraph) :
    scoreItem [] cfg acc item
      = some ⟨acc.total_gold + (itemGold [] cfg item).toFinset.card,
              acc.total_predicted, acc.total_correct, acc.none_count + 1⟩ := by
  unfold scoreItem
  have hip : itemPred [] cfg item = some [] := rfl
  rw [hip]
  show some _ = some _
  congr 1
  simp [itemTotals, Finset.inter_empty, lookupGraph]

theorem computeCounts_empty_predicted (gold : List (Int × MrsGraph)) (cfg : F1Config) :
    ∃ t, computeCounts gold [] cfg = some t ∧ t.total_predicted = 0 := by
  have key : ∀ (l : List (Int × MrsGraph)) (acc : Totals),
      ∃ t, foldO (scoreItem [] cfg) acc l = some t ∧ t.total_predicted = acc.total_predicted := by
    intro l
    induction l with
    | nil => intro acc; exact ⟨acc, rfl, rfl⟩
    | cons item rest ih =>
      intro acc
      obtain ⟨t, ht, htp⟩ := ih ⟨acc.total_gold + (itemGold [] cfg item).toFinset.card,
        acc.total_predicted, acc.total_correct, acc.none_count + 1⟩
      refine ⟨t, ?_, htp⟩
      show (scoreItem [] cfg acc item).bind _ = some t
      rw [scoreItem_empty_predicted]
      exact ht
  exact key gold ⟨0, 0, 0, 0⟩

/-- C2: `compute_f1` fails with the invalid-run failure (`assert
total_predicted > 0 and total_gold > 0`, message `"No correct
predictions"`) exactly when the accumulation completes with
`total_predicted = 0` or `total_gold = 0`; in particular an empty predicted
corpus always raises this failure before any precision/recall/F1 is
computed, instead of returning a score of `0.0`. -/
theorem scorer_invalid_run_iff :
    (∀ (gold predicted : List (Int × MrsGraph)) (cfg : F1Config),
      compute_f1 gold predicted cfg = .error .noCorrect ↔
        ∃ t, computeCounts gold predicted cfg = some t ∧
          (t.total_predicted = 0 ∨ t.total_gold = 0)) ∧
    (∀ (gold : List (Int × MrsGraph)) (cfg : F1Config),
      compute_f1 gold [] cfg = .error .noCorrect) := by
  have part1 : ∀ (gold predicted : List (Int × MrsGraph)) (cfg : F1Config),
      compute_f1 gold predicted cfg = .error .noCorrect ↔
        ∃ t, computeCounts gold predicted cfg = some t ∧
          (t.total_predicted = 0 ∨ t.total_gold = 0) := by
    intro gold predicted cfg
    unfold compute_f1
    cases h : computeCounts gold predicted cfg with
    | none => simp
    | some t =>
      show (if t.total_predicted = 0 ∨ t.total_gold = 0 then Except.error F1Error.noCorrect
        else
          let p : ℚ := (t.total_correct : ℚ) / (t.total_predicted : ℚ)
          let r : ℚ := (t.total_correct : ℚ) / (t.total_gold : ℚ)
          if p + r = 0 then Except.error F1Error.zeroDivision
          else Except.ok (p, r, 2 * p * r / (p + r))) = Except.error F1Error.noCorrect ↔
        ∃ t', some t = some t' ∧ (t'.total_predicted = 0 ∨ t'.total_gold = 0)
      by_cases hc : t.total_predicted = 0 ∨ t.total_gold = 0
      · rw [if_pos hc]
        exact ⟨fun _ => ⟨t, rfl, hc⟩, fun _ => rfl⟩
      · rw [if_neg hc]
        constructor
        · intro hcontra
          exfalso
          have hcontra' : (if (t.total_correct : ℚ) / (t.total_predicted : ℚ)
                + (t.total_correct : ℚ) / (t.total_gold : ℚ) = 0
              then Except.error F1Error.zeroDivision
              else Except.ok ((t.total_correct : ℚ) / (t.total_predicted : ℚ),
                (t.total_correct : ℚ) / (t.total_gold : ℚ),
                2 * ((t.total_correct : ℚ) / (t.total_predicted : ℚ))
                  * ((t.total_correct : ℚ) / (t.total_gold : ℚ))
                  / ((t.total_correct : ℚ) / (t.total_predicted : ℚ)
                    + (t.total_correct : ℚ) / (t.total_gold : ℚ))))
              = Except.error F1Error.noCorrect := hcontra
          split at hcontra'
          · exact absurd (Except.error.inj hcontra') (by decide)
          · exact Except.noConfusion hcontra'
        · rintro ⟨t', ht', hcond⟩
          have heq : t = t' := Option.some.inj ht'
          subst heq
          exact absurd hcond hc
  refine ⟨part1, ?_⟩
  intro gold cfg
  obtain ⟨t, ht, htp⟩ := computeCounts_empty_predicted gold cfg
  rw [part1 gold [] cfg]
  exact ⟨t, ht, Or.inl htp⟩

/-!
## Scorer lemmas: accumulation as a sum of per-item set sizes
-/

theorem foldO_scoreItem_sums (predicted : List (Int × MrsGraph)) (cfg : F1Config) :
    ∀ (l : List (Int × MrsGraph)) (acc t : Totals),
    foldO (scoreItem predicted cfg) acc l = some t →
    ∃ preds : List (List (List Char)),
      mapO (itemPred predicted cfg) l = some preds ∧
      t.total_gold = acc.total_gold
        + (l.map fun it => (itemGold predicted cfg it).toFinset.card).sum ∧
      t.total_predicted = acc.total_predicted
        + ((l.zip preds).map fun x => x.2.toFinset.card).sum ∧
      t.total_correct = acc.total_correct
        + ((l.zip preds).map fun x =>
            ((itemGold predicted cfg x.1).toFinset ∩ x.2.toFinset).card).sum := by
  intro l
  induction l with
  | nil =>
    intro acc t h
    have hacc : acc = t := Option.some.inj h
    subst hacc
    exact ⟨[], rfl, by simp, by simp, by simp⟩
  | cons item rest ih =>
    intro acc t h
    have h' : (scoreItem predicted cfg acc item).bind
        (fun s' => foldO (scoreItem predicted cfg) s' rest) = some t := h
    cases hstep : scoreItem predicted cfg acc item with
    | none => rw [hstep] at h'; exact absurd h' (by simp)
    | some acc1 =>
      rw [hstep] at h'
      have hrest : foldO (scoreItem predicted cfg) acc1 rest = some t := h'
      have hstep' : (itemPred predicted cfg item).map
          (itemTotals predicted cfg acc item) = some acc1 := hstep
      cases hip : itemPred predicted cfg item with
      | none => rw [hip] at hstep'; exact absurd hstep' (by simp)
      | some pt =>
        rw [hip] at hstep'
        have hacc1 := Option.some.inj hstep'
        obtain ⟨preds', hmap', hg', hp', hc'⟩ := ih acc1 t hrest
        refine ⟨pt :: preds', ?_, ?_, ?_, ?_⟩
        · show (itemPred predicted cfg item).bind _ = _
          rw [hip, hmap']
          rfl
        · rw [hg', ← hacc1]
          simp [itemTotals, Nat.add_assoc]
        · rw [hp', ← hacc1]
          simp [itemTotals, Nat.add_assoc]
        · rw [hc', ← hacc1]
          simp [itemTotals, Nat.add_assoc]

/-- C1 amended: over every gold corpus, predicted corpus, and configuration,
the accumulated totals are the sums, over the gold items in order, of the
sizes of the per-item gold triple set, reconciled predicted triple set, and
their intersection (`correct = gold ∩ predicted`, sets collapsing
duplicates); and whenever `compute_f1` returns a score — that is, on a
valid run with `totalCorrect > 0`; with `totalCorrect = 0` the F1 division
raises `ZeroDivisionError` even though the validity assert passed — it is
exactly `precision = totalCorrect/totalPredicted`,
`recall = totalCorrect/totalGold` and
`F1 = 2·precision·recall/(precision+recall)`. -/
theorem scorer_micro_average (gold predicted : List (Int × MrsGraph)) (cfg : F1Config)
    (t : Totals) (h : computeCounts gold predicted cfg = some t) :
    (∃ preds, mapO (itemPred predicted cfg) gold = some preds ∧
      t.total_gold = (gold.map fun it => (itemGold predicted cfg it).toFinset.card).sum ∧
      t.total_predicted = ((gold.zip preds).map fun x => x.2.toFinset.card).sum ∧
      t.total_correct = ((gold.zip preds).map fun x =>
          ((itemGold predicted cfg x.1).toFinset ∩ x.2.toFinset).card).sum) ∧
    (∀ p r f1, compute_f1 gold predicted cfg = .ok (p, r, f1) →
      p = (t.total_correct : ℚ) / (t.total_predicted : ℚ) ∧
      r = (t.total_correct : ℚ) / (t.total_gold : ℚ) ∧
      f1 = 2 * p * r / (p + r)) := by
  constructor
  · obtain ⟨preds, hmap, hg, hp, hc⟩ := foldO_scoreItem_sums predicted cfg gold ⟨0, 0, 0, 0⟩ t h
    exact ⟨preds, hmap, by simpa using hg, by simpa using hp, by simpa using hc⟩
  · intro p r f1 hok
    unfold compute_f1 at hok
    rw [h] at hok
    have hok' : (if t.total_predicted = 0 ∨ t.total_gold = 0 then Except.error F1Error.noCorrect
        else if (t.total_correct : ℚ) / (t.total_predicted : ℚ)
            + (t.total_correct : ℚ) / (t.total_gold : ℚ) = 0
          then Except.error F1Error.zeroDivision
          else Except.ok ((t.total_correct : ℚ) / (t.total_predicted : ℚ),
            (t.total_correct : ℚ) / (t.total_gold : ℚ),
            2 * ((t.total_correct : ℚ) / (t.total_predicted : ℚ))
              * ((t.total_correct : ℚ) / (t.total_gold : ℚ))
              / ((t.total_correct : ℚ) / (t.total_predicted : ℚ)
                + (t.total_correct : ℚ) / (t.total_gold : ℚ))))
        = Except.ok (p, r, f1) := hok
    split at hok'
    · exact Except.noConfusion hok'
    · split at hok'
      · exact Except.noConfusion hok'
      · have h3 := Except.ok.inj hok'
        have hp : p = (t.total_correct : ℚ) / (t.total_predicted : ℚ) :=
          (congrArg Prod.fst h3).symm
        have hr : r = (t.total_correct : ℚ) / (t.total_gold : ℚ) :=
          (congrArg (fun x => x.2.1) h3).symm
        have hf : f1 = 2 * ((t.total_correct : ℚ) / (t.total_predicted : ℚ))
            * ((t.total_correct : ℚ) / (t.total_gold : ℚ))
            / ((t.total_correct : ℚ) / (t.total_predicted : ℚ)
              + (t.total_correct : ℚ) / (t.total_gold : ℚ)) :=
          (congrArg (fun x => x.2.2) h3).symm
        rw [hp, hr, hf]
        exact ⟨rfl, rfl, rfl⟩

theorem mapO_length {f : α → Option β} : ∀ {l : List α} {l' : List β},
    mapO f l = some l' → l'.length = l.length := by
  intro l
  induction l with
  | nil => intro l' h; rw [← Option.some.inj h]; rfl
  | cons a as ih =>
    intro l' h
    have h' : (f a).bind (fun b => (mapO f as).map fun bs => b :: bs) = some l' := h
    cases hfa : f a with
    | none => rw [hfa] at h'; exact absurd h' (by simp)
    | some b =>
      rw [hfa] at h'
      cases hms : mapO f as with
      | none => rw [hms] at h'; exact absurd h' (by simp)
      | some bs =>
        rw [hms] at h'
        rw [← Option.some.inj h']
        simp [ih hms]

theorem reconcile_eq_self_of_subset {gs pt q : List (List Char)}
    (hsub : ∀ s ∈ list_spans pt, s ∈ gs) (h : reconcile gs pt = some q) : q = pt := by
  have h' : (inc_end_spans (list_spans pt)).bind (fun incs =>
      (dec_end_spans (list_spans pt)).bind fun decs =>
        some (replace_new_spans gs ((list_spans pt).zip decs)
          (replace_new_spans gs ((list_spans pt).zip incs) pt))) = some q := h
  cases hinc : inc_end_spans (list_spans pt) with
  | none => rw [hinc] at h'; exact absurd h' (by simp)
  | some incs =>
    rw [hinc] at h'
    have h2 : (dec_end_spans (list_spans pt)).bind (fun decs =>
        some (replace_new_spans gs ((list_spans pt).zip decs)
          (replace_new_spans gs ((list_spans pt).zip incs) pt))) = some q := h'
    have hid1 : replace_new_spans gs ((list_spans pt).zip incs) pt = pt :=
      replace_new_spans_id pt fun pr hpr => Or.inl (hsub pr.1 (List.of_mem_zip hpr).1)
    rw [hid1] at h2
    cases hdec : dec_end_spans (list_spans pt) with
    | none => rw [hdec] at h2; exact absurd h2 (by simp)
    | some decs =>
      rw [hdec] at h2
      have h3 : some (replace_new_spans gs ((list_spans pt).zip decs) pt) = some q := h2
      have hid2 : replace_new_spans gs ((list_spans pt).zip decs) pt = pt :=
        replace_new_spans_id pt fun pr hpr => Or.inl (hsub pr.1 (List.of_mem_zip hpr).1)
      rw [hid2] at h3
      exact (Option.some.inj h3).symm

/-- C7: whenever, for each gold item, the predicted triple set exactly
equals the gold triple set, and the run is valid (the accumulation
completes and the totals are positive), `compute_f1` returns
`F1 = 1.0` (with precision and recall `1.0`) under every configuration;
moreover the Span Reconciler rewrites nothing, because every predicted span
already belongs to the gold span set. -/
theorem exact_match_f1_one (gold predicted : List (Int × MrsGraph)) (cfg : F1Config)
    (t : Totals)
    (hmatch : ∀ item ∈ gold, (itemGold predicted cfg item).toFinset
        = (itemPredRaw predicted cfg item).toFinset)
    (hcounts : computeCounts gold predicted cfg = some t)
    (hpos : 0 < t.total_gold) :
    compute_f1 gold predicted cfg = .ok (1, 1, 1) ∧
    ∀ item ∈ gold, itemPred predicted cfg item = some (itemPredRaw predicted cfg item) := by
  obtain ⟨preds, hmap, hg0, hp0, hc0⟩ :=
    foldO_scoreItem_sums predicted cfg gold ⟨0, 0, 0, 0⟩ t hcounts
  have hg : t.total_gold
      = (gold.map fun it => (itemGold predicted cfg it).toFinset.card).sum := by
    simpa using hg0
  have hp : t.total_predicted
      = ((gold.zip preds).map fun x => x.2.toFinset.card).sum := by
    simpa using hp0
  have hc : t.total_correct
      = ((gold.zip preds).map fun x =>
          ((itemGold predicted cfg x.1).toFinset ∩ x.2.toFinset).card).sum := by
    simpa using hc0
  have hlen : preds.length = gold.length := mapO_length hmap
  have hsub : ∀ item ∈ gold, ∀ s ∈ list_spans (itemPredRaw predicted cfg item),
      s ∈ list_spans (itemGold predicted cfg item) := by
    intro item hmem s hs
    rw [mem_list_spans] at hs ⊢
    obtain ⟨tr, htr, hstr⟩ := hs
    refine ⟨tr, ?_, hstr⟩
    have h1 : tr ∈ (itemPredRaw predicted cfg item).toFinset := List.mem_toFinset.mpr htr
    rw [← hmatch item hmem] at h1
    exact List.mem_toFinset.mp h1
  have hself : ∀ x ∈ gold.zip preds, x.2 = itemPredRaw predicted cfg x.1 := by
    intro x hx
    exact reconcile_eq_self_of_subset (hsub x.1 (List.of_mem_zip hx).1) (mapO_zip hmap x hx)
  have hcard : ∀ x ∈ gold.zip preds,
      x.2.toFinset = (itemGold predicted cfg x.1).toFinset := by
    intro x hx
    rw [hself x hx, ← hmatch x.1 (List.of_mem_zip hx).1]
  have hgold_zip : (gold.map fun it => (itemGold predicted cfg it).toFinset.card)
      = (gold.zip preds).map fun x => (itemGold predicted cfg x.1).toFinset.card := by
    conv_lhs => rw [← List.map_fst_zip gold preds (le_of_eq hlen.symm)]
    rw [List.map_map]
    rfl
  have htp : t.total_predicted = t.total_gold := by
    rw [hp, hg, hgold_zip]
    congr 1
    exact List.map_congr_left fun x hx => by rw [hcard x hx]
  have htc : t.total_correct = t.total_gold := by
    rw [hc, hg, hgold_zip]
    congr 1
    exact List.map_congr_left fun x hx => by rw [hcard x hx, Finset.inter_self]
  constructor
  · unfold compute_f1
    rw [hcounts]
    show (if t.total_predicted = 0 ∨ t.total_gold = 0 then Except.error F1Error.noCorrect
      else
        let p : ℚ := (t.total_correct : ℚ) / (t.total_predicted : ℚ)
        let r : ℚ := (t.total_correct : ℚ) / (t.total_gold : ℚ)
        if p + r = 0 then Except.error F1Error.zeroDivision
        else Except.ok (p, r, 2 * p * r / (p + r))) = Except.ok (1, 1, 1)
    have hcond : ¬(t.total_predicted = 0 ∨ t.total_gold = 0) := by omega
    rw [if_neg hcond, htp, htc]
    have hne : ((t.total_gold : ℚ)) ≠ 0 := Nat.cast_ne_zero.mpr (by omega)
    rw [div_self hne]
    norm_num
  · intro item hmem
    have hx : ∃ acc, (scoreItem predicted cfg acc item).isSome := foldO_isSome hcounts item hmem
    obtain ⟨acc, hacc⟩ := hx
    have hip : (itemPred predicted cfg item).isSome := by
      unfold scoreItem at hacc
      cases hip' : itemPred predicted cfg item with
      | none => rw [hip'] at hacc; exact absurd hacc (by simp)
      | some pt => rfl
    obtain ⟨pt, hpt⟩ := Option.isSome_iff_exists.mp hip
    rw [hpt]
    rw [reconcile_eq_self_of_subset (hsub item hmem) hpt]

/-!
## Span classification with `include_span_ends = false`
-/

/-- A node whose concept, constant, and edge labels contain no space
character, so its triples split into the expected fields. -/
def spaceFreeNode (n : MrsNode) : Prop :=
  ' ' ∉ n.concept ∧ ' ' ∉ n.constant ∧ ∀ e ∈ n.edges, ' ' ∉ e.2

/-- A graph all of whose nodes are space-free. -/
def spaceFreeGraph (g : MrsGraph) : Prop := ∀ n ∈ g.nodes, spaceFreeNode n

instance : DecidablePred spaceFreeNode := fun n => by
  unfold spaceFreeNode
  infer_instance

instance : DecidablePred spaceFreeGraph := fun g => by
  unfold spaceFreeGraph
  infer_instance

theorem relLabel_cases (lab : Bool) (rel : List Char) :
    relLabel lab rel = rel ∨ relLabel lab rel = tokREL ∨ relLabel lab rel = tokEQU := by
  cases lab with
  | false =>
    refine Or.inr (Or.inl ?_)
    show (if tokREL = tokEQ then tokEQU else tokREL) = tokREL
    rw [if_neg (by decide)]
  | true =>
    have hT : relLabel true rel = if rel = tokEQ then tokEQU else rel := rfl
    by_cases h : rel = tokEQ
    · exact Or.inr (Or.inr (by rw [hT, if_pos h]))
    · exact Or.inl (by rw [hT, if_neg h])

theorem space_not_mem_relLabel {lab : Bool} {rel : List Char} (h : ' ' ∉ rel) :
    ' ' ∉ relLabel lab rel := by
  rcases relLabel_cases lab rel with h1 | h1 | h1 <;> rw [h1]
  · exact h
  · decide
  · decide

theorem relationTripleFor_shape (ise lab : Bool) (n c : MrsNode) (rel : List Char) :
    ∃ x y : MrsNode,
      relationTripleFor ise lab n c rel
        = x.span_str ise ++ ' ' :: (relLabel lab rel ++ ' ' :: y.span_str ise) := by
  simp only [relationTripleFor]
  by_cases hsw : rel = tokEQ ∧ (n.start > c.start ∨ n.start = c.start ∧ n.end_ > c.end_)
  · exact ⟨c, n, by rw [if_pos hsw]⟩
  · exact ⟨n, c, by rw [if_neg hsw]⟩

theorem tripleSpans_name_carg {span : List Char} (rest tok : List Char)
    (hspan : ' ' ∉ span) (htok : tok = tokNAME ∨ tok = tokCARG) :
    tripleSpans (span ++ ' ' :: (tok ++ ' ' :: rest)) = [span] := by
  have htoksp : ' ' ∉ tok := by rcases htok with h | h <;> rw [h] <;> decide
  have hparts : pySplit ' ' (span ++ ' ' :: (tok ++ ' ' :: rest))
      = span :: tok :: pySplit ' ' rest := by
    rw [pySplit_append hspan, pySplit_append htoksp]
  unfold tripleSpans
  rw [hparts]
  rw [if_pos ?hc]
  case hc =>
    refine ⟨by simp, ?_⟩
    show tok = tokNAME ∨ tok = tokCARG
    exact htok
  rfl

theorem tripleSpans_three {a r b : List Char} (ha : ' ' ∉ a) (hr : ' ' ∉ r) (hb : ' ' ∉ b) :
    ∀ s ∈ tripleSpans (a ++ ' ' :: (r ++ ' ' :: b)), s = a ∨ s = b := by
  have hparts : pySplit ' ' (a ++ ' ' :: (r ++ ' ' :: b)) = [a, r, b] := by
    rw [pySplit_append ha, pySplit_append hr, pySplit_nosep hb]
  intro s hs
  unfold tripleSpans at hs
  rw [hparts] at hs
  by_cases hcond : ([a, r, b].length > 1
      ∧ ([a, r, b].getD 1 [] = tokNAME ∨ [a, r, b].getD 1 [] = tokCARG))
  · rw [if_pos hcond] at hs
    exact Or.inl (List.mem_singleton.mp hs)
  · rw [if_neg hcond, if_pos (by simp)] at hs
    rcases List.mem_cons.mp hs with h1 | h1
    · exact Or.inl h1
    · exact Or.inr (List.mem_singleton.mp h1)

theorem tripleSpans_bag {c : List Char} (hc : ' ' ∉ c) : tripleSpans c = [] := by
  unfold tripleSpans
  rw [pySplit_nosep hc]
  rw [if_neg (by simp), if_neg (by simp)]

theorem of_mem_predicate_triples {g : MrsGraph} {ic ise : Bool} {t : List Char}
    (h : t ∈ g.predicate_triples ic ise) :
    ∃ n ∈ g.nodes, t = n.span_str ise ++ ' ' :: (tokNAME ++ ' ' :: n.concept)
      ∨ t = n.span_str ise ++ ' ' :: (tokCARG ++ ' ' :: n.constant) := by
  obtain ⟨n, hn, ht⟩ := List.mem_flatMap.mp h
  rcases List.mem_cons.mp ht with h1 | h1
  · exact ⟨n, hn, Or.inl h1⟩
  · refine ⟨n, hn, Or.inr ?_⟩
    split at h1
    · exact List.mem_singleton.mp h1
    · exact absurd h1 (List.not_mem_nil t)

theorem of_mem_predicate_bag {g : MrsGraph} {ic : Bool} {t : List Char}
    (h : t ∈ g.predicate_bag ic) :
    ∃ n ∈ g.nodes, t = n.concept ∨ t = n.constant := by
  obtain ⟨n, hn, ht⟩ := List.mem_flatMap.mp h
  rcases List.mem_cons.mp ht with h1 | h1
  · exact ⟨n, hn, Or.inl h1⟩
  · refine ⟨n, hn, Or.inr ?_⟩
    split at h1
    · exact List.mem_singleton.mp h1
    · exact absurd h1 (List.not_mem_nil t)

theorem selfSpan_span_str_false (n : MrsNode) : selfSpan (n.span_str false) :=
  ⟨n.start, rfl⟩

theorem selfSpan_rootSpan : selfSpan ['-', '1', ':', '-', '1'] := by
  refine ⟨-1, ?_⟩
  decide

/-- With spans reduced to `start:start`, every span `list_spans` collects
from the extracted triples of a space-free graph is a genuine `s:s` span. -/
theorem spans_selfSpan_of_eds (g : MrsGraph) (sp sr ic lab ips : Bool)
    (hsf : spaceFreeGraph g) :
    ∀ s ∈ list_spans (g.eds_triples sp sr false ic lab ips), selfSpan s := by
  intro s hs
  obtain ⟨t, ht, hst⟩ := mem_list_spans.mp hs
  unfold MrsGraph.eds_triples at ht
  rcases List.mem_append.mp ht with hpred | hrel
  · -- predicate side
    by_cases hsp : sp
    · rw [if_pos hsp] at hpred
      by_cases hips : ips
      · rw [if_pos hips] at hpred
        obtain ⟨n, hn, hshape⟩ := of_mem_predicate_triples hpred
        rcases hshape with h1 | h1
        · rw [h1, tripleSpans_name_carg n.concept tokNAME
            (space_not_mem_span_str n false) (Or.inl rfl)] at hst
          rw [List.mem_singleton.mp hst]
          exact selfSpan_span_str_false n
        · rw [h1, tripleSpans_name_carg n.constant tokCARG
            (space_not_mem_span_str n false) (Or.inr rfl)] at hst
          rw [List.mem_singleton.mp hst]
          exact selfSpan_span_str_false n
      · rw [if_neg hips] at hpred
        obtain ⟨n, hn, hshape⟩ := of_mem_predicate_bag hpred
        obtain ⟨hc1, hc2, _⟩ := hsf n hn
        rcases hshape with h1 | h1
        · rw [h1, tripleSpans_bag hc1] at hst
          exact absurd hst (List.not_mem_nil s)
        · rw [h1, tripleSpans_bag hc2] at hst
          exact absurd hst (List.not_mem_nil s)
    · rw [if_neg hsp] at hpred
      exact absurd hpred (List.not_mem_nil t)
  · -- relation side
    by_cases hsr : sr
    · rw [if_pos hsr] at hrel
      rcases mem_relation_triples.mp hrel with ⟨n, hn, _, h1⟩ | ⟨n, hn, e, he, h1⟩
      · -- root-marker triple
        have hroot : t = ['-', '1', ':', '-', '1']
            ++ ' ' :: (['/', 'H'] ++ ' ' :: n.span_str false) := h1
        rw [hroot] at hst
        rcases tripleSpans_three (by decide) (by decide)
            (space_not_mem_span_str n false) s hst with h2 | h2
        · rw [h2]; exact selfSpan_rootSpan
        · rw [h2]; exact selfSpan_span_str_false n
      · -- edge triple
        obtain ⟨x, y, hxy⟩ := relationTripleFor_shape false lab n (g.nodes.getD e.1 default) e.2
        rw [h1, hxy] at hst
        have hrelsp : ' ' ∉ e.2 := (hsf n hn).2.2 e he
        rcases tripleSpans_three (space_not_mem_span_str x false)
            (space_not_mem_relLabel hrelsp) (space_not_mem_span_str y false) s hst with h2 | h2
        · rw [h2]; exact selfSpan_span_str_false x
        · rw [h2]; exact selfSpan_span_str_false y
    · rw [if_neg hsr] at hrel
      exact absurd hrel (List.not_mem_nil t)

theorem mapO_isSome_of_forall {f : α → Option β} :
    ∀ {l : List α}, (∀ a ∈ l, (f a).isSome) → ∃ l', mapO f l = some l' := by
  intro l
  induction l with
  | nil => intro _; exact ⟨[], rfl⟩
  | cons a as ih =>
    intro h
    obtain ⟨b, hb⟩ := Option.isSome_iff_exists.mp (h a (List.mem_cons_self _ _))
    obtain ⟨bs, hbs⟩ := ih fun x hx => h x (List.mem_cons_of_mem _ hx)
    refine ⟨b :: bs, ?_⟩
    show (f a).bind _ = _
    rw [hb, hbs]
    rfl

/-- A pass whose shifted spans are all obtained by a nonzero end shift from
genuine `s:s` spans, checked against a gold set of genuine `s:s` spans,
rewrites nothing. -/
theorem replace_pass_selfSpan_id {gs ps incs ts : List (List Char)} {δ : Int}
    (hδ : δ ≠ 0)
    (hps : ∀ s ∈ ps, selfSpan s)
    (hgs : ∀ s ∈ gs, selfSpan s)
    (hmap : mapO (shift_end_span δ) ps = some incs) :
    replace_new_spans gs (ps.zip incs) ts = ts := by
  apply replace_new_spans_id
  intro pr hpr
  right
  intro hnew
  obtain ⟨hm1, _⟩ := List.of_mem_zip hpr
  obtain ⟨i, hi⟩ := hps pr.1 hm1
  have hshift : shift_end_span δ pr.1 = some pr.2 := mapO_zip hmap pr hpr
  rw [hi, shift_selfSpan] at hshift
  have hpr2 : pr.2 = intStr i ++ ':' :: intStr (i + δ) := (Option.some.inj hshift).symm
  obtain ⟨j, hj⟩ := hgs pr.2 hnew
  rw [hpr2] at hj
  exact selfSpan_ne_shifted hδ hj

/-- C9 amended: when `include_span_ends` is false and both graphs are
space-free (no space character in any concept, constant, or edge label —
without this the span fields of a triple are misparsed and a rewrite can
occur), every collected span has the form `s:s`, every shifted counterpart
differs from every gold span, and the Span Reconciler rewrites nothing. -/
theorem span_ends_false_no_rewrite (gold_g pred_g : MrsGraph) (cfg : F1Config)
    (hise : cfg.include_span_ends = false)
    (hg : spaceFreeGraph gold_g) (hp : spaceFreeGraph pred_g) :
    reconcile (list_spans (extractTriples cfg gold_g)) (extractTriples cfg pred_g)
      = some (extractTriples cfg pred_g) := by
  have hgself : ∀ s ∈ list_spans (extractTriples cfg gold_g), selfSpan s := by
    unfold extractTriples
    rw [hise]
    exact spans_selfSpan_of_eds gold_g _ _ _ _ _ hg
  have hpself : ∀ s ∈ list_spans (extractTriples cfg pred_g), selfSpan s := by
    unfold extractTriples
    rw [hise]
    exact spans_selfSpan_of_eds pred_g _ _ _ _ _ hp
  set gs := list_spans (extractTriples cfg gold_g) with hgs_def
  set pt := extractTriples cfg pred_g with hpt_def
  have hshift_some : ∀ (δ : Int), ∀ s ∈ list_spans pt, (shift_end_span δ s).isSome := by
    intro δ s hsm
    obtain ⟨i, hi⟩ := hpself s hsm
    rw [hi, shift_selfSpan]
    rfl
  obtain ⟨incs, hinc⟩ := mapO_isSome_of_forall (hshift_some 1)
  obtain ⟨decs, hdec⟩ := mapO_isSome_of_forall (hshift_some (-1))
  have hval : reconcile gs pt
      = some (replace_new_spans gs ((list_spans pt).zip decs)
          (replace_new_spans gs ((list_spans pt).zip incs) pt)) := by
    show (inc_end_spans (list_spans pt)).bind _ = _
    rw [show inc_end_spans (list_spans pt) = some incs from hinc]
    show (dec_end_spans (list_spans pt)).bind _ = _
    rw [show dec_end_spans (list_spans pt) = some decs from hdec]
    rfl
  rw [hval,
    replace_pass_selfSpan_id (by omega) hpself hgself hinc,
    replace_pass_selfSpan_id (by omega) hpself hgself hdec]

/-!
## The state-passing scorer agrees with the pure one and preserves graphs
-/

theorem replacePassSt_eq (gs : List (List Char)) :
    ∀ (pairs : List (List Char × List Char)) (st : ScorerState),
    replacePassSt gs pairs st = { st with scratch := replace_new_spans gs pairs st.scratch } := by
  intro pairs
  induction pairs with
  | nil => intro st; rfl
  | cons pr rest ih =>
    intro st
    have h1 : replacePassSt gs (pr :: rest) st
        = replacePassSt gs rest (if pr.1 ∉ gs ∧ pr.2 ∈ gs then
            { st with scratch := st.scratch.map fun t => pyReplace pr.1 pr.2 t } else st) := rfl
    have h2 : replace_new_spans gs (pr :: rest) st.scratch
        = replace_new_spans gs rest (if pr.1 ∉ gs ∧ pr.2 ∈ gs then
            st.scratch.map fun t => pyReplace pr.1 pr.2 t else st.scratch) := rfl
    rw [h1, h2]
    by_cases hc : pr.1 ∉ gs ∧ pr.2 ∈ gs
    · rw [if_pos hc, if_pos hc, ih]
    · rw [if_neg hc, if_neg hc, ih]

theorem scoreItemSt_spec (cfg : F1Config) (st : ScorerState) (acc : Totals)
    (item : Int × MrsGraph) :
    (scoreItemSt cfg st acc item).1.gold_graphs = st.gold_graphs ∧
    (scoreItemSt cfg st acc item).1.predicted_graphs = st.predicted_graphs ∧
    (scoreItemSt cfg st acc item).2 = scoreItem st.predicted_graphs cfg acc item := by
  have hsc : scoreItem st.predicted_graphs cfg acc item
      = (itemPred st.predicted_graphs cfg item).map
          (itemTotals st.predicted_graphs cfg acc item) := rfl
  have hrec : itemPred st.predicted_graphs cfg item
      = (inc_end_spans (list_spans (itemPredRaw st.predicted_graphs cfg item))).bind
          (fun incs =>
            (dec_end_spans (list_spans (itemPredRaw st.predicted_graphs cfg item))).bind
              fun decs =>
                some (replace_new_spans (list_spans (itemGold st.predicted_graphs cfg item))
                  ((list_spans (itemPredRaw st.predicted_graphs cfg item)).zip decs)
                  (replace_new_spans (list_spans (itemGold st.predicted_graphs cfg item))
                    ((list_spans (itemPredRaw st.predicted_graphs cfg item)).zip incs)
                    (itemPredRaw st.predicted_graphs cfg item)))) := rfl
  have hstep : scoreItemSt cfg st acc item
      = (match inc_end_spans (list_spans (itemPredRaw st.predicted_graphs cfg item)) with
        | none => (({ st with scratch := itemPredRaw st.predicted_graphs cfg item }
            : ScorerState), (none : Option Totals))
        | some incs =>
          match dec_end_spans (list_spans (itemPredRaw st.predicted_graphs cfg item)) with
          | none =>
            (replacePassSt (list_spans (itemGold st.predicted_graphs cfg item))
              ((list_spans (itemPredRaw st.predicted_graphs cfg item)).zip incs)
              { st with scratch := itemPredRaw st.predicted_graphs cfg item }, none)
          | some decs =>
            ((replacePassSt (list_spans (itemGold st.predicted_graphs cfg item))
              ((list_spans (itemPredRaw st.predicted_graphs cfg item)).zip decs)
              (replacePassSt (list_spans (itemGold st.predicted_graphs cfg item))
                ((list_spans (itemPredRaw st.predicted_graphs cfg item)).zip incs)
                { st with scratch := itemPredRaw st.predicted_graphs cfg item })),
             some (itemTotals st.predicted_graphs cfg acc item
               (replacePassSt (list_spans (itemGold st.predicted_graphs cfg item))
                 ((list_spans (itemPredRaw st.predicted_graphs cfg item)).zip decs)
                 (replacePassSt (list_spans (itemGold st.predicted_graphs cfg item))
                   ((list_spans (itemPredRaw st.predicted_graphs cfg item)).zip incs)
                   { st with
                     scratch := itemPredRaw st.predicted_graphs cfg item })).scratch))) := rfl
  cases hinc : inc_end_spans (list_spans (itemPredRaw st.predicted_graphs cfg item)) with
  | none =>
    rw [hinc] at hstep
    have hval : scoreItemSt cfg st acc item
        = ({ st with scratch := itemPredRaw st.predicted_graphs cfg item }, none) := hstep
    have hip : itemPred st.predicted_graphs cfg item = none := by
      rw [hrec, hinc]
      rfl
    rw [hval, hsc, hip]
    exact ⟨rfl, rfl, rfl⟩
  | some incs =>
    rw [hinc] at hstep
    cases hdec : dec_end_spans (list_spans (itemPredRaw st.predicted_graphs cfg item)) with
    | none =>
      rw [hdec] at hstep
      have hval : scoreItemSt cfg st acc item
          = (replacePassSt (list_spans (itemGold st.predicted_graphs cfg item))
              ((list_spans (itemPredRaw st.predicted_graphs cfg item)).zip incs)
              { st with scratch := itemPredRaw st.predicted_graphs cfg item }, none) := hstep
      have hip : itemPred st.predicted_graphs cfg item = none := by
        rw [hrec, hinc]
        show (dec_end_spans (list_spans (itemPredRaw st.predicted_graphs cfg item))).bind _
          = none
        rw [hdec]
        rfl
      rw [hval, hsc, hip, replacePassSt_eq]
      exact ⟨rfl, rfl, rfl⟩
    | some decs =>
      rw [hdec] at hstep
      have hval : scoreItemSt cfg st acc item
          = ((replacePassSt (list_spans (itemGold st.predicted_graphs cfg item))
              ((list_spans (itemPredRaw st.predicted_graphs cfg item)).zip decs)
              (replacePassSt (list_spans (itemGold st.predicted_graphs cfg item))
                ((list_spans (itemPredRaw st.predicted_graphs cfg item)).zip incs)
                { st with scratch := itemPredRaw st.predicted_graphs cfg item })),
             some (itemTotals st.predicted_graphs cfg acc item
               (replacePassSt (list_spans (itemGold st.predicted_graphs cfg item))
                 ((list_spans (itemPredRaw st.predicted_graphs cfg item)).zip decs)
                 (replacePassSt (list_spans (itemGold st.predicted_graphs cfg item))
                   ((list_spans (itemPredRaw st.predicted_graphs cfg item)).zip incs)
                   { st with
                     scratch := itemPredRaw st.predicted_graphs cfg item })).scratch)) := hstep
      have hip : itemPred st.predicted_graphs cfg item
          = some (replace_new_spans (list_spans (itemGold st.predicted_graphs cfg item))
              ((list_spans (itemPredRaw st.predicted_graphs cfg item)).zip decs)
              (replace_new_spans (list_spans (itemGold st.predicted_graphs cfg item))
                ((list_spans (itemPredRaw st.predicted_graphs cfg item)).zip incs)
                (itemPredRaw st.predicted_graphs cfg item))) := by
        rw [hrec, hinc]
        show (dec_end_spans (list_spans (itemPredRaw st.predicted_graphs cfg item))).bind _
          = _
        rw [hdec]
        rfl
      rw [hval, hsc, hip, replacePassSt_eq, replacePassSt_eq]
      exact ⟨rfl, rfl, rfl⟩

theorem runItems_spec (cfg : F1Config) :
    ∀ (l : List (Int × MrsGraph)) (st : ScorerState) (acc : Totals),
    (runItems cfg st acc l).1.gold_graphs = st.gold_graphs ∧
    (runItems cfg st acc l).1.predicted_graphs = st.predicted_graphs ∧
    (runItems cfg st acc l).2 = foldO (scoreItem st.predicted_graphs cfg) acc l := by
  intro l
  induction l with
  | nil => intro st acc; exact ⟨rfl, rfl, rfl⟩
  | cons item rest ih =>
    intro st acc
    obtain ⟨hg, hp, hr⟩ := scoreItemSt_spec cfg st acc item
    have hrun : runItems cfg st acc (item :: rest)
        = (match scoreItemSt cfg st acc item with
          | (st', none) => (st', none)
          | (st', some acc') => runItems cfg st' acc' rest) := rfl
    have hfold : foldO (scoreItem st.predicted_graphs cfg) acc (item :: rest)
        = (scoreItem st.predicted_graphs cfg acc item).bind
            (fun acc' => foldO (scoreItem st.predicted_graphs cfg) acc' rest) := rfl
    cases hsi : scoreItemSt cfg st acc item with
    | mk st' r =>
      rw [hsi] at hg hp hr
      cases r with
      | none =>
        rw [hrun, hsi, hfold, ← hr]
        exact ⟨hg, hp, rfl⟩
      | some acc' =>
        rw [hrun, hsi, hfold, ← hr]
        obtain ⟨ihg, ihp, ihr⟩ := ih st' acc'
        refine ⟨ihg.trans hg, ihp.trans hp, ?_⟩
        rw [ihr, hp]
        rfl

theorem computeF1St_spec (st : ScorerState) (cfg : F1Config) :
    (computeF1St st cfg).1.gold_graphs = st.gold_graphs ∧
    (computeF1St st cfg).1.predicted_graphs = st.predicted_graphs ∧
    (computeF1St st cfg).2 = compute_f1 st.gold_graphs st.predicted_graphs cfg := by
  obtain ⟨hg, hp, hr⟩ := runItems_spec cfg st.gold_graphs st ⟨0, 0, 0, 0⟩
  have hcc : computeCounts st.gold_graphs st.predicted_graphs cfg
      = (runItems cfg st ⟨0, 0, 0, 0⟩ st.gold_graphs).2 := hr.symm
  have hrun : computeF1St st cfg
      = (match runItems cfg st ⟨0, 0, 0, 0⟩ st.gold_graphs with
        | (st', none) => (st', Except.error F1Error.spanError)
        | (st', some t) =>
          (st',
           if t.total_predicted = 0 ∨ t.total_gold = 0 then Except.error F1Error.noCorrect
           else
             let p : ℚ := (t.total_correct : ℚ) / (t.total_predicted : ℚ)
             let r : ℚ := (t.total_correct : ℚ) / (t.total_gold : ℚ)
             if p + r = 0 then Except.error F1Error.zeroDivision
             else Except.ok (p, r, 2 * p * r / (p + r)))) := rfl
  have hcf : compute_f1 st.gold_graphs st.predicted_graphs cfg
      = (match computeCounts st.gold_graphs st.predicted_graphs cfg with
        | none => Except.error F1Error.spanError
        | some t =>
          if t.total_predicted = 0 ∨ t.total_gold = 0 then Except.error F1Error.noCorrect
          else
            let p : ℚ := (t.total_correct : ℚ) / (t.total_predicted : ℚ)
            let r : ℚ := (t.total_correct : ℚ) / (t.total_gold : ℚ)
            if p + r = 0 then Except.error F1Error.zeroDivision
            else Except.ok (p, r, 2 * p * r / (p + r))) := rfl
  cases hri : runItems cfg st ⟨0, 0, 0, 0⟩ st.gold_graphs with
  | mk st' r =>
    rw [hri] at hg hp
    rw [hri] at hcc
    cases r with
    | none =>
      rw [hrun, hri, hcf, hcc]
      exact ⟨hg, hp, rfl⟩
    | some t =>
      rw [hrun, hri, hcf, hcc]
      exact ⟨hg, hp, rfl⟩

/-- C8: the Scorer never mutates the input graphs.  In the state-passing
model of the source's single in-place mutation (the rewriting of the
freshly extracted predicted-triples buffer by `replace_new_spans`), any
sequence of `compute_f1` invocations leaves both corpora — every graph with
its nodes, spans, concepts, constants, top flags, and edges — unchanged,
and each invocation observes the original graphs: the results are exactly
the pure `compute_f1` values on the initial corpora. -/
theorem scorer_preserves_graphs : ∀ (cfgs : List F1Config) (st : ScorerState),
    (runScorer st cfgs).1.gold_graphs = st.gold_graphs ∧
    (runScorer st cfgs).1.predicted_graphs = st.predicted_graphs ∧
    (runScorer st cfgs).2
      = cfgs.map (compute_f1 st.gold_graphs st.predicted_graphs) := by
  intro cfgs
  induction cfgs with
  | nil => intro st; exact ⟨rfl, rfl, rfl⟩
  | cons cfg rest ih =>
    intro st
    obtain ⟨hg, hp, hr⟩ := computeF1St_spec st cfg
    have hrun : runScorer st (cfg :: rest)
        = ((runScorer (computeF1St st cfg).1 rest).1,
           (computeF1St st cfg).2 :: (runScorer (computeF1St st cfg).1 rest).2) := rfl
    obtain ⟨ihg, ihp, ihr⟩ := ih (computeF1St st cfg).1
    rw [hrun]
    refine ⟨ihg.trans hg, ihp.trans hp, ?_⟩
    show (computeF1St st cfg).2 :: (runScorer (computeF1St st cfg).1 rest).2
      = compute_f1 st.gold_graphs st.predicted_graphs cfg
        :: rest.map (compute_f1 st.gold_graphs st.predicted_graphs)
    rw [hr, ihr, hg, hp]

/-!
## The span list is a set, computed once
-/

/-- Two predicted triples sharing the span `0:1`: `list_spans` collapses the
duplicate, while the spec-described order-preserving duplicate-keeping list
does not. -/
def dupSpanTriples : List (List Char) :=
  [['0', ':', '1', ' ', 'N', 'A', 'M', 'E', ' ', 'a'],
   ['0', ':', '1', ' ', 'N', 'A', 'M', 'E', ' ', 'b']]

/-- A gold span set and predicted triples on which the source's
once-computed span list and the spec-described recomputed-per-pass variant
reconcile to different collections: the `+1` pass rewrites `0:1` to `0:2`
and, textually, `10:1` to `10:2`; recomputing spans before the `-1` pass
would then rewrite `10:2` back to `10:1`, which the source does not do. -/
def onceGoldSpans : List (List Char) :=
  [['0', ':', '2'], ['1', '0', ':', '1']]

/-- The predicted triples for the once-computed-versus-recomputed contrast. -/
def oncePredTriples : List (List Char) :=
  [['0', ':', '1', ' ', 'N', 'A', 'M', 'E', ' ', 'a'],
   ['1', '0', ':', '1', ' ', 'N', 'A', 'M', 'E', ' ', 'b']]

/-- C4 counterexample: the predicted spans driving rewriting are not the
order-preserving duplicate-keeping list of span occurrences (duplicates are
collapsed), and the second pass does not recompute them from the mutated
collection (the once-computed and recomputed reconcilers disagree). -/
theorem span_list_dup_counterexample :
    list_spans dupSpanTriples ≠ list_spans_dup dupSpanTriples ∧
    reconcile onceGoldSpans oncePredTriples
      ≠ reconcile_recomputed onceGoldSpans oncePredTriples := by
  constructor
  · decide
  · decide

/-- C4 amended: the spans that drive rewriting are the distinct spans of the
predicted triple collection (a set — duplicates collapsed, membership
agreeing with the raw occurrence list; the set's iteration order is
Python-implementation-defined), computed once from the pre-reconciliation
collection; both shift passes enumerate that same list, each rewriting the
current (possibly already-mutated) triple collection. -/
theorem span_list_set_semantics :
    (∀ ts : List (List Char), (list_spans ts).Nodup ∧
      ∀ s : List Char, s ∈ list_spans ts ↔ s ∈ list_spans_dup ts) ∧
    (∀ gs ts : List (List Char),
      reconcile gs ts
        = (inc_end_spans (list_spans ts)).bind fun incs =>
            (dec_end_spans (list_spans ts)).bind fun decs =>
              some (replace_new_spans gs ((list_spans ts).zip decs)
                (replace_new_spans gs ((list_spans ts).zip incs) ts))) := by
  constructor
  · intro ts
    refine ⟨list_spans_nodup ts, fun s => ?_⟩
    rw [mem_list_spans, mem_list_spans_dup]
  · intro gs ts
    rfl

/-!
## Concrete instances
-/

/-- A one-node top-flagged graph used as a concrete corpus. -/
def wGraph : MrsGraph :=
  { nodes := [{ name := ['0'], concept := ['a'], start := 0, end_ := 1, top := true }],
    parse_id := 1 }

/-- The one-item corpus containing `wGraph` under parse id 1. -/
def wCorpus : List (Int × MrsGraph) := [((1 : Int), wGraph)]

/-- The full-EDM configuration (predicates and relations, all defaults). -/
def cfgFull : F1Config := { score_predicates := true, score_relations := true }

/-- The full-EDM configuration with span ends excluded. -/
def cfgNoEnds : F1Config :=
  { score_predicates := true, score_relations := true, include_span_ends := false }

/-- C1 witness at a concrete run: the corpus `wCorpus` scored against itself
accumulates totals `(2, 2, 2)` as the per-item set sums, and the returned
metrics follow the three formulas. -/
theorem scorer_micro_average_witness :
    computeCounts wCorpus wCorpus cfgFull = some ⟨2, 2, 2, 0⟩ ∧
    ((∃ preds, mapO (itemPred wCorpus cfgFull) wCorpus = some preds ∧
      (⟨2, 2, 2, 0⟩ : Totals).total_gold
        = (wCorpus.map fun it => (itemGold wCorpus cfgFull it).toFinset.card).sum ∧
      (⟨2, 2, 2, 0⟩ : Totals).total_predicted
        = ((wCorpus.zip preds).map fun x => x.2.toFinset.card).sum ∧
      (⟨2, 2, 2, 0⟩ : Totals).total_correct
        = ((wCorpus.zip preds).map fun x =>
            ((itemGold wCorpus cfgFull x.1).toFinset ∩ x.2.toFinset).card).sum) ∧
    (∀ p r f1, compute_f1 wCorpus wCorpus cfgFull = .ok (p, r, f1) →
      p = ((⟨2, 2, 2, 0⟩ : Totals).total_correct : ℚ)
          / ((⟨2, 2, 2, 0⟩ : Totals).total_predicted : ℚ) ∧
      r = ((⟨2, 2, 2, 0⟩ : Totals).total_correct : ℚ)
          / ((⟨2, 2, 2, 0⟩ : Totals).total_gold : ℚ) ∧
      f1 = 2 * p * r / (p + r))) :=
  ⟨by decide, scorer_micro_average wCorpus wCorpus cfgFull ⟨2, 2, 2, 0⟩ (by decide)⟩

/-- A record whose only node carries an edge to the unknown target id 5. -/
def recBadTarget : ParseRecord :=
  ⟨3, [{ id := 1, predicate := ['p'], start := 0, end_ := 2,
         edges := [{ target := 5, label := ['A'] }] }]⟩

/-- C5 witness: the record with an unknown edge target fails construction. -/
theorem unknown_target_fails_witness :
    ({ id := 1, predicate := ['p'], start := 0, end_ := 2,
       edges := [{ target := 5, label := ['A'] }] } : NodeRecord) ∈ recBadTarget.nodes ∧
    MrsGraph.parse_orig_json_line recBadTarget = none :=
  ⟨by decide,
   unknown_target_fails recBadTarget
     { id := 1, predicate := ['p'], start := 0, end_ := 2,
       edges := [{ target := 5, label := ['A'] }] }
     { target := 5, label := ['A'] } (by decide) (by decide) (by decide)⟩

/-- A record whose node supplies the constant `abc` (unquoted). -/
def recConst : ParseRecord :=
  ⟨2, [{ id := 1, predicate := ['p'], constant := some ['a', 'b', 'c'],
         start := 0, end_ := 2 }]⟩

/-- The graph `recConst` parses to: the constant is stored quote-wrapped. -/
def graphConst : MrsGraph :=
  { nodes := [{ name := ['0'], concept := ['p'], start := 0, end_ := 2,
                constant := ['"', 'a', 'b', 'c', '"'] }],
    parse_id := 2 }

/-- C6 witness: parsing `recConst` stores the canonicalized, quote-wrapped
constant. -/
theorem constant_canonicalized_witness :
    MrsGraph.parse_orig_json_line recConst = some graphConst ∧
    (∃ gn, graphConst.nodes.get? 0 = some gn
      ∧ canonConstant ['a', 'b', 'c'] = some gn.constant
      ∧ gn.constant.head? = some '"' ∧ gn.constant.getLast? = some '"') :=
  ⟨by decide,
   constant_canonicalized_amended recConst graphConst 0
     { id := 1, predicate := ['p'], constant := some ['a', 'b', 'c'], start := 0, end_ := 2 }
     ['a', 'b', 'c'] (by decide) (by decide) (by decide) (by decide)⟩

/-- C7 witness: a corpus scored against itself satisfies the per-item
set-equality hypothesis, the run is valid, and the score is `F1 = 1.0`. -/
theorem exact_match_f1_one_witness :
    computeCounts wCorpus wCorpus cfgFull = some ⟨2, 2, 2, 0⟩ ∧
    (compute_f1 wCorpus wCorpus cfgFull = .ok (1, 1, 1) ∧
     ∀ item ∈ wCorpus,
       itemPred wCorpus cfgFull item = some (itemPredRaw wCorpus cfgFull item)) :=
  ⟨by decide,
   exact_match_f1_one wCorpus wCorpus cfgFull ⟨2, 2, 2, 0⟩ (by decide) (by decide) (by decide)⟩

/-- A space-free gold graph with span `3:5`. -/
def wGold9 : MrsGraph :=
  { nodes := [{ name := ['0'], concept := ['p'], start := 3, end_ := 5 }], parse_id := 1 }

/-- A space-free predicted graph with span `3:4`. -/
def wPred9 : MrsGraph :=
  { nodes := [{ name := ['0'], concept := ['p'], start := 3, end_ := 4 }], parse_id := 1 }

/-- C9 witness: for space-free graphs under `include_span_ends = false` the
reconciler leaves the predicted triples unchanged. -/
theorem span_ends_false_no_rewrite_witness :
    spaceFreeGraph wGold9 ∧ spaceFreeGraph wPred9 ∧
    reconcile (list_spans (extractTriples cfgNoEnds wGold9))
        (extractTriples cfgNoEnds wPred9)
      = some (extractTriples cfgNoEnds wPred9) :=
  ⟨by decide, by decide,
   span_ends_false_no_rewrite wGold9 wPred9 cfgNoEnds rfl (by decide) (by decide)⟩

/-- A gold graph whose edge label `L 0:2` contains a space, so the label
fragment `0:2` is collected as a gold "span". -/
def gGoldC9 : MrsGraph :=
  { nodes :=
      [{ name := ['0'], concept := ['A'], start := 0, end_ := 7,
         edges := [(1, ['L', ' ', '0', ':', '2'])] },
       { name := ['1'], concept := ['B'], start := 2, end_ := 9 }],
    parse_id := 1 }

/-- A predicted graph whose edge label `X 0:1` contains a space, so the
fragment `0:1` is collected as a predicted "span". -/
def gPredC9 : MrsGraph :=
  { nodes :=
      [{ name := ['0'], concept := ['p', 'A'], start := 0, end_ := 3,
         edges := [(1, ['X', ' ', '0', ':', '1'])] },
       { name := ['1'], concept := ['p', 'B'], start := 5, end_ := 8 }],
    parse_id := 1 }

/-- C9 counterexample: with `include_span_ends = false` the Span Reconciler
does rewrite a predicted triple — the collected fragment `0:1` is not a
gold span, its `+1` shift `0:2` is one, and the relation triple
`0:0 X 0:1 5:5` is rewritten to `0:0 X 0:2 5:5`. -/
theorem span_rewrite_span_ends_false_counterexample :
    itemPred [((1 : Int), gPredC9)] cfgNoEnds ((1 : Int), gGoldC9)
      = some [['0', ':', '0', ' ', 'N', 'A', 'M', 'E', ' ', 'p', 'A'],
              ['5', ':', '5', ' ', 'N', 'A', 'M', 'E', ' ', 'p', 'B'],
              ['0', ':', '0', ' ', 'X', ' ', '0', ':', '2', ' ', '5', ':', '5']] ∧
    itemPredRaw [((1 : Int), gPredC9)] cfgNoEnds ((1 : Int), gGoldC9)
      = [['0', ':', '0', ' ', 'N', 'A', 'M', 'E', ' ', 'p', 'A'],
         ['5', ':', '5', ' ', 'N', 'A', 'M', 'E', ' ', 'p', 'B'],
         ['0', ':', '0', ' ', 'X', ' ', '0', ':', '1', ' ', '5', ':', '5']] ∧
    itemPred [((1 : Int), gPredC9)] cfgNoEnds ((1 : Int), gGoldC9)
      ≠ some (itemPredRaw [((1 : Int), gPredC9)] cfgNoEnds ((1 : Int), gGoldC9)) := by
  refine ⟨by decide, by decide, by decide⟩

/-- A graph with the same parse id and span as `wGraph` but a different
concept and no top flag, so its triples are disjoint from `wGraph`'s. -/
def wOther : MrsGraph :=
  { nodes := [{ name := ['0'], concept := ['b'], start := 0, end_ := 1 }], parse_id := 1 }

/-- C1 counterexample: a run that passes the validity check
(`totalPredicted = 1 > 0`, `totalGold = 2 > 0`) but has no correct triples
computes no F1 at all — `precision + recall` is `0` and the F1 expression
raises `ZeroDivisionError` — refuting the claim that a valid run always
computes the three metrics. -/
theorem zero_division_counterexample :
    computeCounts wCorpus [((1 : Int), wOther)] cfgFull = some ⟨2, 1, 0, 0⟩ ∧
    compute_f1 wCorpus [((1 : Int), wOther)] cfgFull = .error .zeroDivision := by
  have h : computeCounts wCorpus [((1 : Int), wOther)] cfgFull = some ⟨2, 1, 0, 0⟩ := by
    decide
  refine ⟨h, ?_⟩
  unfold compute_f1
  rw [h]
  show (if (1 : Nat) = 0 ∨ (2 : Nat) = 0 then Except.error F1Error.noCorrect
    else
      let p : ℚ := ((0 : Nat) : ℚ) / ((1 : Nat) : ℚ)
      let r : ℚ := ((0 : Nat) : ℚ) / ((2 : Nat) : ℚ)
      if p + r = 0 then Except.error F1Error.zeroDivision
      else Except.ok (p, r, 2 * p * r / (p + r))) = Except.error F1Error.zeroDivision
  rw [if_neg (by decide)]
  show (if ((0 : Nat) : ℚ) / ((1 : Nat) : ℚ) + ((0 : Nat) : ℚ) / ((2 : Nat) : ℚ) = 0
    then Except.error F1Error.zeroDivision
    else Except.ok (((0 : Nat) : ℚ) / ((1 : Nat) : ℚ), ((0 : Nat) : ℚ) / ((2 : Nat) : ℚ),
      2 * (((0 : Nat) : ℚ) / ((1 : Nat) : ℚ)) * (((0 : Nat) : ℚ) / ((2 : Nat) : ℚ))
        / (((0 : Nat) : ℚ) / ((1 : Nat) : ℚ) + ((0 : Nat) : ℚ) / ((2 : Nat) : ℚ))))
    = Except.error F1Error.zeroDivision
  rw [if_pos (by norm_num)]

/-- The root-marker triple of `wGraph` with spans included. -/
def wRootTriple : List Char :=
  ['-', '1', ':', '-', '1', ' ', '/', 'H', ' ', '0', ':', '1']

/-- C10 witness: the concrete unlabeled relation triple of `wGraph` is a
root-marker triple with its `/H` label (or a `REL` edge triple). -/
theorem unlabeled_relation_labels_witness :
    (∃ n ∈ wGraph.nodes, n.top = true ∧ wRootTriple = rootMark ++ n.span_str true) ∨
    (∃ x y : MrsNode,
      wRootTriple = x.span_str true ++ ' ' :: (tokREL ++ ' ' :: y.span_str true)) :=
  unlabeled_relation_labels.1 wGraph true wRootTriple (by decide)
